import Mathlib

/-!
# Verification of the footprint_analyzer aggregation core

A shallow embedding of the repository's bar-formation engine
(`footprint_analyzer/domain.py`, `footprint_analyzer/engine.py`,
`footprint_analyzer/config.py`) together with proofs about it.

Modelling conventions:
* Python `int` is modelled as `ℤ`; Python `float` prices, ratios and the
  value-area target are modelled as `ℚ` (the concrete values the claims touch
  are exactly representable, and no claim depends on binary rounding).
* `datetime` / `pd.Timestamp` values are modelled as `ℕ`, a count of seconds;
  a pandas `floor` to a fixed frequency of `d` seconds is `(t / d) * d`
  (Nat division), and `pd.Timedelta` addition is `+ d`.
* A Python `dict[float, PriceLevelData]` is modelled as an insertion-ordered
  `List PriceLevelData` keyed by the `price` field; dict-key uniqueness is the
  `Nodup` hypothesis carried by the theorems that need it.
* Python's `round` (banker's rounding) is `roundHalfEven`.
* `float('inf')` for the dominance ratio is the `posInf` constructor of
  `FloatRatio`; all finite ratio values produced by the code are of the form
  `n / 1` or `n / m` with `m > 0`, modelled exactly in `ℚ`.
* Out-of-range Python list indexing raises; the embedding uses `getD _ 0`
  defaults at those spots, and every theorem that walks indices carries the
  in-range invariants under which the two semantics agree.
-/

/-- Python's `round`: round to nearest integer, ties to even
(`round(price / tick_size)` in `engine.py`).  Written over the reduced
fraction `num/den` in pure integer arithmetic so the kernel can evaluate it:
`f = ⌊q⌋` is the floor division `num.fdiv den`, and the fractional part
`q - f` compares to `1/2` exactly as `2·(num − f·den)` compares to `den`. -/
def roundHalfEven (q : ℚ) : ℤ :=
  let n : ℤ := q.num
  let d : ℤ := (q.den : ℤ)
  let f : ℤ := n.fdiv d
  let r2 : ℤ := 2 * (n - f * d)
  if r2 < d then f
  else if d < r2 then f + 1
  else if f % 2 = 0 then f else f + 1

/-- `round(price / self.config.tick_size) * self.config.tick_size`
(engine.py, `process_tick` / `_create_new_bar`). -/
def quantize (tickSize : ℚ) (price : ℚ) : ℚ :=
  (roundHalfEven (price / tickSize) : ℚ) * tickSize

/-- The `zero_handling` argument of `PriceLevelData.update_derived_metrics`:
`"set_to_one"` or `"inf"` (domain.py line 76). -/
inductive ZeroHandling where
  | set_to_one
  | inf_sentinel
  deriving DecidableEq, Repr

/-- A Python float that is either an exact rational or `float('inf')`
(the only two shapes `dominance_ratio` can take, domain.py lines 86-94). -/
inductive FloatRatio where
  | finite (q : ℚ)
  | posInf
  deriving DecidableEq, Repr

/-- `PriceLevelData` (domain.py lines 56-70): raw counters plus the derived
fields recomputed by `update_derived_metrics`. -/
structure PriceLevelData where
  price : ℚ
  bid_volume : ℤ
  ask_volume : ℤ
  bid_trades : ℤ
  ask_trades : ℤ
  total_volume : ℤ
  total_trades : ℤ
  delta : ℤ
  is_ask_dominant : Bool
  dominance_ratio : FloatRatio
  deriving DecidableEq, Repr

/-- `PriceLevelData.update_derived_metrics` (domain.py lines 76-94):
recomputes total volume, total trades, delta, the dominant side and the
dominance ratio from the raw counters. -/
def updateDerivedMetrics (zh : ZeroHandling) (l : PriceLevelData) : PriceLevelData :=
  let isAskDom : Bool := decide (l.bid_volume ≤ l.ask_volume)
  let numerator : ℤ := if isAskDom then l.ask_volume else l.bid_volume
  let denom0 : ℤ := if isAskDom then l.bid_volume else l.ask_volume
  -- `if denominator == 0: if zero_handling == "set_to_one": denominator = 1`
  let denom : ℤ := if denom0 = 0 ∧ zh = ZeroHandling.set_to_one then 1 else denom0
  -- `if denominator == 0: ratio = inf if numerator > 0 else 0.0` else `numerator / denominator`
  let ratio : FloatRatio :=
    if denom = 0 then (if 0 < numerator then FloatRatio.posInf else FloatRatio.finite 0)
    else FloatRatio.finite ((numerator : ℚ) / (denom : ℚ))
  { l with
    total_volume := l.bid_volume + l.ask_volume
    total_trades := l.bid_trades + l.ask_trades
    delta := l.ask_volume - l.bid_volume
    is_ask_dominant := isAskDom
    dominance_ratio := ratio }

/-- `PriceLevelData(price=rounded_price)` followed by `__post_init__`
(domain.py lines 59-74): zeroed counters with derived fields computed with the
default `"set_to_one"` handling. -/
def mkPriceLevelData (price : ℚ) : PriceLevelData :=
  updateDerivedMetrics ZeroHandling.set_to_one
    { price := price
      bid_volume := 0, ask_volume := 0, bid_trades := 0, ask_trades := 0
      total_volume := 0, total_trades := 0, delta := 0
      is_ask_dominant := false, dominance_ratio := FloatRatio.finite 0 }

/-- `FootprintBar` (domain.py lines 96-122). `price_levels` is the
insertion-ordered dict, `poc_price` / `value_area_high` / `value_area_low`
default to `None`. -/
structure FootprintBar where
  start_time : ℕ
  end_time : ℕ
  open_price : ℚ
  high_price : ℚ
  low_price : ℚ
  close_price : ℚ
  price_levels : List PriceLevelData := []
  total_bar_volume : ℤ := 0
  total_bar_ask_volume : ℤ := 0
  total_bar_bid_volume : ℤ := 0
  total_bar_trades : ℤ := 0
  bar_delta : ℤ := 0
  poc_price : Option ℚ := none
  value_area_high : Option ℚ := none
  value_area_low : Option ℚ := none
  is_up_bar : Bool := false
  tick_count : ℤ := 0
  current_aggregated_volume : ℤ := 0
  deriving DecidableEq, Repr

/-- `max(self.price_levels.values(), key=lambda level: level.total_volume)`
keeps the FIRST element of iteration order among ties (Python `max` replaces
the running best only on a strictly greater key). -/
def pocLevelAux (best : PriceLevelData) : List PriceLevelData → PriceLevelData
  | [] => best
  | l :: ls => pocLevelAux (if best.total_volume < l.total_volume then l else best) ls

/-- `max(self.price_levels.values(), key=..., default=None)`
(domain.py line 142). -/
def pocLevel : List PriceLevelData → Option PriceLevelData
  | [] => none
  | l :: ls => some (pocLevelAux l ls)

/-- `self.price_levels[p].total_volume`: dict lookup by price
(total volume of the unique level keyed by `p`; the Python lookup raises on a
missing key, which no reachable call performs). -/
def volAt (pls : List PriceLevelData) (p : ℚ) : ℤ :=
  ((pls.find? (fun l => l.price = p)).map PriceLevelData.total_volume).getD 0

/-- The Value-Area expansion loop of `update_bar_statistics`
(domain.py lines 155-167), with explicit fuel: starting from the window
`[low, high]` holding accumulated volume `va`, while `va < target` expand
toward the larger neighbouring level (ties upward), stopping when both
neighbouring volumes read as `0`.  `sorted.length` fuel is enough for every
execution that the Python loop completes (one iteration per window growth plus
the final break). -/
def vaExpand (pls : List PriceLevelData) (sorted : List ℚ) (target : ℚ) :
    ℕ → ℕ → ℕ → ℤ → ℕ × ℕ
  | 0, low, high, _ => (low, high)
  | fuel + 1, low, high, va =>
    if (va : ℚ) < target then
      let volAbove : ℤ :=
        if high + 1 < sorted.length then volAt pls (sorted.getD (high + 1) 0) else 0
      let volBelow : ℤ :=
        if 1 ≤ low then volAt pls (sorted.getD (low - 1) 0) else 0
      if volAbove = 0 ∧ volBelow = 0 then (low, high)
      else if volBelow ≤ volAbove then
        vaExpand pls sorted target fuel low (high + 1) (va + volAbove)
      else
        vaExpand pls sorted target fuel (low - 1) high (va + volBelow)
    else (low, high)

/-- `sorted(self.price_levels.keys())` (domain.py line 149). -/
def sortedPrices (pls : List PriceLevelData) : List ℚ :=
  (pls.map PriceLevelData.price).insertionSort (· ≤ ·)

/-- `FootprintBar.update_bar_statistics` (domain.py lines 124-170). -/
def updateBarStatistics (vap : ℚ) (bar : FootprintBar) : FootprintBar :=
  if bar.price_levels = [] then
    { bar with is_up_bar := decide (bar.open_price ≤ bar.close_price) }
  else
    let askSum := (bar.price_levels.map PriceLevelData.ask_volume).sum
    let bidSum := (bar.price_levels.map PriceLevelData.bid_volume).sum
    let bar1 : FootprintBar :=
      { bar with
        total_bar_volume := (bar.price_levels.map PriceLevelData.total_volume).sum
        total_bar_ask_volume := askSum
        total_bar_bid_volume := bidSum
        total_bar_trades := (bar.price_levels.map PriceLevelData.total_trades).sum
        bar_delta := askSum - bidSum
        is_up_bar := decide (bar.open_price ≤ bar.close_price) }
    let bar2 : FootprintBar :=
      match pocLevel bar1.price_levels with
      | some l => { bar1 with poc_price := some l.price }
      | none => bar1
    match bar2.poc_price with
    | some poc =>
      if 0 < bar2.total_bar_volume then
        let target : ℚ := (bar2.total_bar_volume : ℚ) * vap
        let sorted := sortedPrices bar2.price_levels
        let pocIdx := sorted.indexOf poc
        let lh := vaExpand bar2.price_levels sorted target sorted.length pocIdx pocIdx
          (volAt bar2.price_levels poc)
        { bar2 with
          value_area_high := some (sorted.getD lh.2 0)
          value_area_low := some (sorted.getD lh.1 0) }
      else bar2
    | none => bar2

/-- `AggregationType` together with `aggregation_value` (config.py lines 19-24):
a duration (in seconds) for TIME, an integer threshold for TICK/VOLUME. -/
inductive Aggregation where
  | time (duration : ℕ)
  | tick (threshold : ℤ)
  | volume (threshold : ℤ)
  | range
  | reversal
  deriving DecidableEq, Repr

/-- `FootprintEngineConfig` (config.py lines 15-35). -/
structure FootprintEngineConfig where
  tick_size : ℚ := 1/4
  aggregation : Aggregation := Aggregation.time 60
  value_area_percentage : ℚ := 7/10
  enable_bid_ask_ratios_with_zeros_as_ones : Bool := true
  max_bars_in_memory : ℕ := 10000
  deriving Repr

/-- `FootprintEngineConfig.get_zero_handling_for_ratios` (config.py 33-35). -/
def FootprintEngineConfig.get_zero_handling_for_ratios
    (cfg : FootprintEngineConfig) : ZeroHandling :=
  if cfg.enable_bid_ask_ratios_with_zeros_as_ones then ZeroHandling.set_to_one
  else ZeroHandling.inf_sentinel

/-- The mutable state of `FootprintEngine` (engine.py lines 27-36). -/
structure EngineState where
  bars : List FootprintBar := []
  current_bar : Option FootprintBar := none
  total_ticks_processed : ℕ := 0
  deriving DecidableEq, Repr

/-- A freshly constructed engine. -/
def initState : EngineState := {}

/-- One market tick: the four arguments of `process_tick`. -/
structure Tick where
  timestamp : ℕ
  price : ℚ
  volume : ℤ
  is_bid_trade : Bool
  deriving DecidableEq, Repr

/-- `FootprintEngine._should_create_new_bar` (engine.py lines 93-106). -/
def shouldCreateNewBar (cfg : FootprintEngineConfig) (bar : FootprintBar)
    (timestamp : ℕ) : Bool :=
  match cfg.aggregation with
  | Aggregation.time d => decide (bar.start_time + d ≤ timestamp)
  | Aggregation.tick n => decide (n ≤ bar.tick_count)
  | Aggregation.volume n => decide (n ≤ bar.current_aggregated_volume)
  | _ => false

/-- `FootprintEngine._create_new_bar` (engine.py lines 108-125): seeds OHLC
with the quantized price; in TIME mode the start time is the tick's timestamp
floored to the configured duration. -/
def createNewBar (cfg : FootprintEngineConfig) (timestamp : ℕ) (price : ℚ) :
    FootprintBar :=
  let rp := quantize cfg.tick_size price
  let st : ℕ :=
    match cfg.aggregation with
    | Aggregation.time d => (timestamp / d) * d
    | _ => timestamp
  { start_time := st, end_time := timestamp
    open_price := rp, high_price := rp, low_price := rp, close_price := rp }

/-- `FootprintEngine._finalize_current_bar` (engine.py lines 127-140):
update statistics, append to history, evict the single oldest bar when the
bound is exceeded, clear the current bar. -/
def finalizeCurrentBar (cfg : FootprintEngineConfig) (s : EngineState) :
    EngineState :=
  match s.current_bar with
  | none => s
  | some b =>
    let b' := updateBarStatistics cfg.value_area_percentage b
    let bars1 := s.bars ++ [b']
    let bars2 := if cfg.max_bars_in_memory < bars1.length then bars1.drop 1 else bars1
    { s with bars := bars2, current_bar := none }

/-- Updates the dict entry whose key is `rp` (there is at most one). -/
def updateLevel (rp : ℚ) (f : PriceLevelData → PriceLevelData) :
    List PriceLevelData → List PriceLevelData
  | [] => []
  | l :: ls => if l.price = rp then f l :: ls else l :: updateLevel rp f ls

/-- The per-level mutation of `process_tick` (engine.py lines 57-65): add the
tick's volume and trade to the aggressor side, then recompute derived fields. -/
def applyTickToLevel (zh : ZeroHandling) (tk : Tick) (l : PriceLevelData) :
    PriceLevelData :=
  let l' :=
    if tk.is_bid_trade then
      { l with bid_volume := l.bid_volume + tk.volume, bid_trades := l.bid_trades + 1 }
    else
      { l with ask_volume := l.ask_volume + tk.volume, ask_trades := l.ask_trades + 1 }
  updateDerivedMetrics zh l'

/-- The whole tick-folding tail of `process_tick` (engine.py lines 52-73):
create the price level if absent, mutate it, update OHLC / end time /
aggregation counters. -/
def foldTickIntoBar (cfg : FootprintEngineConfig) (tk : Tick) (b : FootprintBar) :
    FootprintBar :=
  let rp := quantize cfg.tick_size tk.price
  let levels0 :=
    if b.price_levels.any (fun l => l.price = rp) then b.price_levels
    else b.price_levels ++ [mkPriceLevelData rp]
  let levels1 := updateLevel rp (applyTickToLevel cfg.get_zero_handling_for_ratios tk) levels0
  { b with
    price_levels := levels1
    high_price := max b.high_price rp
    low_price := min b.low_price rp
    close_price := rp
    end_time := tk.timestamp
    tick_count := b.tick_count + 1
    current_aggregated_volume := b.current_aggregated_volume + tk.volume }

/-- `FootprintEngine.process_tick` (engine.py lines 38-73). -/
def processTick (cfg : FootprintEngineConfig) (s : EngineState) (tk : Tick) :
    EngineState :=
  let s1 : EngineState := { s with total_ticks_processed := s.total_ticks_processed + 1 }
  let s2 : EngineState :=
    match s1.current_bar with
    | none => { s1 with current_bar := some (createNewBar cfg tk.timestamp tk.price) }
    | some b =>
      if shouldCreateNewBar cfg b tk.timestamp then
        let s' := finalizeCurrentBar cfg s1
        { s' with current_bar := some (createNewBar cfg tk.timestamp tk.price) }
      else s1
  match s2.current_bar with
  | none => s2  -- the logged "critical error" safeguard, unreachable
  | some b => { s2 with current_bar := some (foldTickIntoBar cfg tk b) }

/-- `FootprintEngine.process_tick_batch` (engine.py lines 75-91): fold the
ticks in order, then refresh the in-progress bar's statistics without
finalizing it. -/
def processTickBatch (cfg : FootprintEngineConfig) (s : EngineState)
    (ticks : List Tick) : EngineState :=
  let s' := ticks.foldl (processTick cfg) s
  match s'.current_bar with
  | some b =>
    { s' with current_bar := some (updateBarStatistics cfg.value_area_percentage b) }
  | none => s'

/-- A sequence of ticks processed one by one from a state. -/
def processTicks (cfg : FootprintEngineConfig) (s : EngineState)
    (ticks : List Tick) : EngineState :=
  ticks.foldl (processTick cfg) s

/-- The derived fields of a price level agree with its raw counters
(the invariant of spec §8 / claim C4). -/
def LevelConsistent (l : PriceLevelData) : Prop :=
  l.total_volume = l.bid_volume + l.ask_volume ∧
  l.total_trades = l.bid_trades + l.ask_trades ∧
  l.delta = l.ask_volume - l.bid_volume

/-- Every price level of a bar is consistent. -/
def BarLevelsConsistent (b : FootprintBar) : Prop :=
  ∀ l ∈ b.price_levels, LevelConsistent l

/-- Every price level reachable from an engine state is consistent. -/
def StateLevelsConsistent (s : EngineState) : Prop :=
  (∀ b ∈ s.bars, BarLevelsConsistent b) ∧
  (∀ b, s.current_bar = some b → BarLevelsConsistent b)

/-- The dict well-formedness that engine-built bars enjoy when every folded
tick has positive volume: unique price keys, non-negative side counters, and
strictly positive recomputed total volume on every level. -/
def BarLevelsWF (b : FootprintBar) : Prop :=
  (b.price_levels.map PriceLevelData.price).Nodup ∧
  ∀ l ∈ b.price_levels,
    0 ≤ l.bid_volume ∧ 0 ≤ l.ask_volume ∧ 0 < l.total_volume

/-- All bars of a state are well-formed in the sense of `BarLevelsWF`. -/
def StateLevelsWF (s : EngineState) : Prop :=
  (∀ b ∈ s.bars, BarLevelsWF b) ∧
  (∀ b, s.current_bar = some b → BarLevelsWF b)

/-- The externally drivable operations of the engine (claim C5):
single tick, batch, and forcing finalization of the in-progress bar. -/
inductive EngineOp where
  | tick (tk : Tick)
  | batch (ticks : List Tick)
  | finalize
  deriving Repr

/-- Run one operation. -/
def applyOp (cfg : FootprintEngineConfig) (s : EngineState) : EngineOp → EngineState
  | EngineOp.tick tk => processTick cfg s tk
  | EngineOp.batch ticks => processTickBatch cfg s ticks
  | EngineOp.finalize => finalizeCurrentBar cfg s

/-- Run a sequence of operations from a state. -/
def runOps (cfg : FootprintEngineConfig) (s : EngineState) (ops : List EngineOp) :
    EngineState :=
  ops.foldl (applyOp cfg) s

/-- Ghost history: the bars a state would finalize on one more tick, appended
without any bound.  `processTick` finalizes exactly when a bar is in progress
and the boundary check fires; the finalized bar is the statistics-updated
current bar. -/
def ghostTick (cfg : FootprintEngineConfig) (sg : EngineState × List FootprintBar)
    (tk : Tick) : EngineState × List FootprintBar :=
  let g' :=
    match sg.1.current_bar with
    | some b =>
      if shouldCreateNewBar cfg b tk.timestamp then
        sg.2 ++ [updateBarStatistics cfg.value_area_percentage b]
      else sg.2
    | none => sg.2
  (processTick cfg sg.1 tk, g')

/-- Ghost history for a whole operation: the unbounded, insertion-ordered list
of every bar ever finalized. -/
def ghostOp (cfg : FootprintEngineConfig) (sg : EngineState × List FootprintBar) :
    EngineOp → EngineState × List FootprintBar
  | EngineOp.tick tk => ghostTick cfg sg tk
  | EngineOp.batch ticks =>
    let sg' := ticks.foldl (ghostTick cfg) sg
    (processTickBatch cfg sg.1 ticks, sg'.2)
  | EngineOp.finalize =>
    (finalizeCurrentBar cfg sg.1,
     match sg.1.current_bar with
     | some b => sg.2 ++ [updateBarStatistics cfg.value_area_percentage b]
     | none => sg.2)

/-- Ghost run: the engine state paired with the full finalization history. -/
def ghostRun (cfg : FootprintEngineConfig) (sg : EngineState × List FootprintBar)
    (ops : List EngineOp) : EngineState × List FootprintBar :=
  ops.foldl (ghostOp cfg) sg

/-- The `m` most recent elements of a list, oldest first. -/
def lastN (m : ℕ) (l : List α) : List α := l.drop (l.length - m)

/-- The contiguous slice `sorted[low..high]` that the Value-Area loop has
accumulated. -/
def vaWindow (s : List ℚ) (low high : ℕ) : List ℚ :=
  (s.drop low).take (high + 1 - low)

/-- Total volume held by the Value-Area window `[low, high]`. -/
def vaWindowSum (pls : List PriceLevelData) (s : List ℚ) (low high : ℕ) : ℤ :=
  ((vaWindow s low high).map (volAt pls)).sum

/-- The configuration of the end-to-end example (spec §8 / claim C9):
tick size 0.25, TIME aggregation at one minute. -/
def cfgExample : FootprintEngineConfig :=
  { tick_size := 1/4, aggregation := Aggregation.time 60 }

/-- The four ticks of the end-to-end example; the last timestamp is a
parameter (any instant at least 60 s after the first tick). -/
def ticksExample (t4 : ℕ) : List Tick :=
  [ { timestamp := 0, price := 100, volume := 10, is_bid_trade := false },
    { timestamp := 10, price := 100 + 1/4, volume := 5, is_bid_trade := true },
    { timestamp := 59, price := 100, volume := 8, is_bid_trade := false },
    { timestamp := t4, price := 101, volume := 20, is_bid_trade := false } ]

/-- A freshly created level: both sides zero. -/
def lvlZero : PriceLevelData := mkPriceLevelData 100

/-- A level with only ask volume. -/
def lvlAskOnly : PriceLevelData := { mkPriceLevelData 100 with ask_volume := 7 }

/-- A level with only bid volume. -/
def lvlBidOnly : PriceLevelData := { mkPriceLevelData 100 with bid_volume := 4 }

/-- A bar with no price levels (as created by `_create_new_bar` before any
tick is folded in). -/
def barEmptyLevels : FootprintBar := createNewBar cfgExample 0 100

/-- A TICK-mode configuration with a 3-tick threshold (as in the repository's
`test_tick_aggregation`). -/
def cfgTick3 : FootprintEngineConfig :=
  { tick_size := 1/4, aggregation := Aggregation.tick 3 }

/-- Four one-lot ticks (the `test_tick_aggregation` stream). -/
def ticksTick4 : List Tick :=
  [ { timestamp := 0, price := 100, volume := 1, is_bid_trade := true },
    { timestamp := 1, price := 100, volume := 1, is_bid_trade := true },
    { timestamp := 2, price := 100, volume := 1, is_bid_trade := true },
    { timestamp := 3, price := 101, volume := 1, is_bid_trade := true } ]

/-- A tick with zero volume (an input-contract violation per spec §7). -/
def tickZeroVolume : Tick :=
  { timestamp := 0, price := 100, volume := 0, is_bid_trade := true }

/-- A consistent price level at price 101 holding total volume 10. -/
def lvlTieHigh : PriceLevelData :=
  { price := 101, bid_volume := 0, ask_volume := 10, bid_trades := 0, ask_trades := 1
    total_volume := 10, total_trades := 1, delta := 10
    is_ask_dominant := true, dominance_ratio := FloatRatio.finite 10 }

/-- A consistent price level at price 100 holding total volume 10. -/
def lvlTieLow : PriceLevelData :=
  { price := 100, bid_volume := 0, ask_volume := 10, bid_trades := 0, ask_trades := 1
    total_volume := 10, total_trades := 1, delta := 10
    is_ask_dominant := true, dominance_ratio := FloatRatio.finite 10 }

/-- A bar whose dict holds two volume-tied levels, the HIGHER price inserted
first (insertion order `[101, 100]`). -/
def barTie : FootprintBar :=
  { start_time := 0, end_time := 0
    open_price := 100, high_price := 101, low_price := 100, close_price := 100
    price_levels := [lvlTieHigh, lvlTieLow] }

/-- The first three ticks of the end-to-end example (all inside one minute). -/
def ticksExample3 : List Tick :=
  [ { timestamp := 0, price := 100, volume := 10, is_bid_trade := false },
    { timestamp := 10, price := 100 + 1/4, volume := 5, is_bid_trade := true },
    { timestamp := 59, price := 100, volume := 8, is_bid_trade := false } ]

/-- The boundary-crossing fourth tick of the example. -/
def tickFour (t4 : ℕ) : Tick :=
  { timestamp := t4, price := 101, volume := 20, is_bid_trade := false }

/-- The engine after the first three example ticks. -/
def stateAfter3 : EngineState := processTicks cfgExample initState ticksExample3

/-- The in-progress bar after the first three example ticks. -/
def barAfter3 : FootprintBar :=
  foldTickIntoBar cfgExample
    { timestamp := 59, price := 100, volume := 8, is_bid_trade := false }
    (foldTickIntoBar cfgExample
      { timestamp := 10, price := 100 + 1/4, volume := 5, is_bid_trade := true }
      (foldTickIntoBar cfgExample
        { timestamp := 0, price := 100, volume := 10, is_bid_trade := false }
        (createNewBar cfgExample 0 100)))

/-- A one-lot tick at time 0. -/
def tickOneLot : Tick :=
  { timestamp := 0, price := 100, volume := 1, is_bid_trade := true }

/-- The engine after processing a single one-lot tick in TICK(3) mode. -/
def stateOneTick : EngineState := processTick cfgTick3 initState tickOneLot

/-- The in-progress bar of `stateOneTick`. -/
def barOneTick : FootprintBar :=
  foldTickIntoBar cfgTick3 tickOneLot (createNewBar cfgTick3 0 100)

/-! ## Component-level lemmas -/

theorem updateDerivedMetrics_counters (zh : ZeroHandling) (l : PriceLevelData) :
    (updateDerivedMetrics zh l).price = l.price ∧
    (updateDerivedMetrics zh l).bid_volume = l.bid_volume ∧
    (updateDerivedMetrics zh l).ask_volume = l.ask_volume ∧
    (updateDerivedMetrics zh l).bid_trades = l.bid_trades ∧
    (updateDerivedMetrics zh l).ask_trades = l.ask_trades := by
  simp [updateDerivedMetrics]

theorem levelConsistent_updateDerivedMetrics (zh : ZeroHandling) (l : PriceLevelData) :
    LevelConsistent (updateDerivedMetrics zh l) := by
  refine ⟨?_, ?_, ?_⟩ <;> simp [updateDerivedMetrics]

theorem levelConsistent_mk (p : ℚ) : LevelConsistent (mkPriceLevelData p) :=
  levelConsistent_updateDerivedMetrics _ _

/-- `update_bar_statistics` touches only the summary fields: everything else
(OHLC, times, price levels, aggregation counters) is preserved. -/
theorem updateBarStatistics_frame (vap : ℚ) (b : FootprintBar) :
    (updateBarStatistics vap b).start_time = b.start_time ∧
    (updateBarStatistics vap b).end_time = b.end_time ∧
    (updateBarStatistics vap b).open_price = b.open_price ∧
    (updateBarStatistics vap b).high_price = b.high_price ∧
    (updateBarStatistics vap b).low_price = b.low_price ∧
    (updateBarStatistics vap b).close_price = b.close_price ∧
    (updateBarStatistics vap b).price_levels = b.price_levels ∧
    (updateBarStatistics vap b).tick_count = b.tick_count ∧
    (updateBarStatistics vap b).current_aggregated_volume = b.current_aggregated_volume := by
  rcases h : b.price_levels with _ | ⟨hd, tl⟩
  · simp [updateBarStatistics, h]
  · simp only [updateBarStatistics, h]
    rw [if_neg (by simp)]
    norm_num [pocLevel]
    split <;> simp

theorem foldTickIntoBar_counters (cfg : FootprintEngineConfig) (tk : Tick)
    (b : FootprintBar) :
    (foldTickIntoBar cfg tk b).tick_count = b.tick_count + 1 ∧
    (foldTickIntoBar cfg tk b).current_aggregated_volume
      = b.current_aggregated_volume + tk.volume ∧
    (foldTickIntoBar cfg tk b).start_time = b.start_time ∧
    (foldTickIntoBar cfg tk b).end_time = tk.timestamp ∧
    (foldTickIntoBar cfg tk b).open_price = b.open_price ∧
    (foldTickIntoBar cfg tk b).close_price = quantize cfg.tick_size tk.price := by
  simp [foldTickIntoBar]

theorem createNewBar_fields (cfg : FootprintEngineConfig) (t : ℕ) (p : ℚ) :
    (createNewBar cfg t p).tick_count = 0 ∧
    (createNewBar cfg t p).current_aggregated_volume = 0 ∧
    (createNewBar cfg t p).price_levels = [] ∧
    (createNewBar cfg t p).end_time = t ∧
    (createNewBar cfg t p).open_price = quantize cfg.tick_size p := by
  simp [createNewBar]

/-- Membership in an updated dict: every entry is an untouched old entry or
the image of an old entry under the update. -/
theorem mem_updateLevel {rp : ℚ} {f : PriceLevelData → PriceLevelData}
    {ls : List PriceLevelData} {x : PriceLevelData}
    (hx : x ∈ updateLevel rp f ls) : x ∈ ls ∨ ∃ y ∈ ls, x = f y := by
  induction ls with
  | nil => simp [updateLevel] at hx
  | cons l ls ih =>
    by_cases h : l.price = rp
    · rw [updateLevel, if_pos h, List.mem_cons] at hx
      rcases hx with h1 | h1
      · exact Or.inr ⟨l, List.mem_cons_self _ _, h1⟩
      · exact Or.inl (List.mem_cons_of_mem _ h1)
    · rw [updateLevel, if_neg h, List.mem_cons] at hx
      rcases hx with h1 | h1
      · exact Or.inl (h1 ▸ List.mem_cons_self _ _)
      · rcases ih h1 with h2 | ⟨y, hy, h2⟩
        · exact Or.inl (List.mem_cons_of_mem _ h2)
        · exact Or.inr ⟨y, List.mem_cons_of_mem _ hy, h2⟩

theorem barLevelsConsistent_foldTick (cfg : FootprintEngineConfig) (tk : Tick)
    {b : FootprintBar} (hb : BarLevelsConsistent b) :
    BarLevelsConsistent (foldTickIntoBar cfg tk b) := by
  intro l hl
  simp only [foldTickIntoBar] at hl
  rcases mem_updateLevel hl with hl2 | ⟨y, _, rfl⟩
  · split at hl2
    · exact hb l hl2
    · rcases List.mem_append.1 hl2 with h2 | h2
      · exact hb l h2
      · simp only [List.mem_singleton] at h2
        subst h2
        exact levelConsistent_mk _
  · exact levelConsistent_updateDerivedMetrics _ _

/-- The bars of a finalized state: each is an old finalized bar or the
statistics-updated previous current bar. -/
theorem mem_bars_finalize {cfg : FootprintEngineConfig} {s : EngineState}
    {b2 : FootprintBar} (h : b2 ∈ (finalizeCurrentBar cfg s).bars) :
    b2 ∈ s.bars ∨
      ∃ b, s.current_bar = some b ∧
        b2 = updateBarStatistics cfg.value_area_percentage b := by
  unfold finalizeCurrentBar at h
  rcases hc : s.current_bar with _ | b
  · rw [hc] at h
    exact Or.inl h
  · rw [hc] at h
    simp only at h
    have h2 : b2 ∈ s.bars ++ [updateBarStatistics cfg.value_area_percentage b] := by
      split at h
      · exact List.mem_of_mem_drop h
      · exact h
    rcases List.mem_append.1 h2 with h3 | h3
    · exact Or.inl h3
    · simp only [List.mem_singleton] at h3
      exact Or.inr ⟨b, rfl, h3⟩

theorem barLevelsConsistent_updateBarStatistics (vap : ℚ) {b : FootprintBar}
    (hb : BarLevelsConsistent b) :
    BarLevelsConsistent (updateBarStatistics vap b) := by
  intro l hl
  rw [(updateBarStatistics_frame vap b).2.2.2.2.2.2.1] at hl
  exact hb l hl

theorem stateLevelsConsistent_processTick (cfg : FootprintEngineConfig)
    {s : EngineState} (hs : StateLevelsConsistent s) (tk : Tick) :
    StateLevelsConsistent (processTick cfg s tk) := by
  obtain ⟨hbars, hcur⟩ := hs
  have hnewbar : BarLevelsConsistent (createNewBar cfg tk.timestamp tk.price) := by
    intro l hl
    simp [createNewBar] at hl
  unfold processTick
  rcases hc : s.current_bar with _ | b
  · exact ⟨fun b2 hb2 => hbars b2 hb2,
      fun b2 hb2 => by
        simp only [Option.some.injEq] at hb2
        exact hb2 ▸ barLevelsConsistent_foldTick cfg tk hnewbar⟩
  · by_cases hcross : shouldCreateNewBar cfg b tk.timestamp
    · simp only [hc, hcross, if_true]
      constructor
      · intro b2 hb2
        rcases mem_bars_finalize (by simpa using hb2) with h3 | ⟨b3, hb3, rfl⟩
        · exact hbars b2 h3
        · simp only [hc, Option.some.injEq] at hb3
          exact barLevelsConsistent_updateBarStatistics _ (hb3 ▸ hcur b hc)
      · intro b2 hb2
        simp only [Option.some.injEq] at hb2
        exact hb2 ▸ barLevelsConsistent_foldTick cfg tk hnewbar
    · simp only [hc, Bool.not_eq_true] at hcross
      simp only [hc, hcross, Bool.false_eq_true, if_false]
      exact ⟨fun b2 hb2 => hbars b2 hb2,
        fun b2 hb2 => by
          simp only [Option.some.injEq] at hb2
          exact hb2 ▸ barLevelsConsistent_foldTick cfg tk (hcur b hc)⟩

/-! ## Claim theorems: C4, C7, C8 -/

/-- C4: at every externally observable point — after construction of a
`PriceLevelData` and after every `process_tick` from a fresh engine — the
derived fields agree with the raw counters: `total_volume = bid + ask`,
`total_trades = bid_trades + ask_trades`, `delta = ask − bid`. -/
theorem C4_derived_fields_consistent :
    (∀ p : ℚ, LevelConsistent (mkPriceLevelData p)) ∧
    (∀ (zh : ZeroHandling) (l : PriceLevelData),
      LevelConsistent (updateDerivedMetrics zh l)) ∧
    (∀ (cfg : FootprintEngineConfig) (ticks : List Tick),
      StateLevelsConsistent (processTicks cfg initState ticks)) := by
  refine ⟨levelConsistent_mk, levelConsistent_updateDerivedMetrics, ?_⟩
  intro cfg ticks
  suffices h : ∀ s : EngineState, StateLevelsConsistent s →
      StateLevelsConsistent (processTicks cfg s ticks) by
    refine h initState ⟨?_, ?_⟩ <;> simp [initState]
  induction ticks with
  | nil => exact fun s hs => hs
  | cons tk ticks ih =>
    intro s hs
    exact ih _ (stateLevelsConsistent_processTick cfg hs tk)

/-- Witness for C4 at a concrete run. -/
theorem C4_witness :
    LevelConsistent (mkPriceLevelData 100) ∧
    StateLevelsConsistent (processTicks cfgExample initState (ticksExample 61)) :=
  ⟨C4_derived_fields_consistent.1 100,
   C4_derived_fields_consistent.2.2 cfgExample (ticksExample 61)⟩

/-- C7: the dominance ratio on the zero boundary — both sides zero gives
`0.0` under either zero-handling policy; a single zero side under the
`"set_to_one"` policy gives exactly the nonzero side's volume. -/
theorem C7_dominance_ratio_zero_cases (l : PriceLevelData) :
    ((l.bid_volume = 0 ∧ l.ask_volume = 0) →
      ∀ zh : ZeroHandling,
        (updateDerivedMetrics zh l).dominance_ratio = FloatRatio.finite 0) ∧
    ((l.bid_volume = 0 ∧ 0 < l.ask_volume) →
      (updateDerivedMetrics ZeroHandling.set_to_one l).dominance_ratio
        = FloatRatio.finite (l.ask_volume : ℚ)) ∧
    ((l.ask_volume = 0 ∧ 0 < l.bid_volume) →
      (updateDerivedMetrics ZeroHandling.set_to_one l).dominance_ratio
        = FloatRatio.finite (l.bid_volume : ℚ)) := by
  refine ⟨?_, ?_, ?_⟩
  · rintro ⟨hb, ha⟩ zh
    cases zh <;> simp [updateDerivedMetrics, hb, ha]
  · rintro ⟨hb, ha⟩
    simp [updateDerivedMetrics, hb, le_of_lt ha]
  · rintro ⟨ha, hb⟩
    simp [updateDerivedMetrics, ha, not_le.2 hb]

/-- Witness for C7 at concrete levels: `(0,0) ↦ 0.0` under both policies,
`(0,7) ↦ 7.0` and `(4,0) ↦ 4.0` under `"set_to_one"`. -/
theorem C7_witness :
    ((lvlZero.bid_volume = 0 ∧ lvlZero.ask_volume = 0) ∧
      (updateDerivedMetrics ZeroHandling.inf_sentinel lvlZero).dominance_ratio
        = FloatRatio.finite 0 ∧
      (updateDerivedMetrics ZeroHandling.set_to_one lvlZero).dominance_ratio
        = FloatRatio.finite 0) ∧
    ((lvlAskOnly.bid_volume = 0 ∧ 0 < lvlAskOnly.ask_volume) ∧
      (updateDerivedMetrics ZeroHandling.set_to_one lvlAskOnly).dominance_ratio
        = FloatRatio.finite 7) ∧
    ((lvlBidOnly.ask_volume = 0 ∧ 0 < lvlBidOnly.bid_volume) ∧
      (updateDerivedMetrics ZeroHandling.set_to_one lvlBidOnly).dominance_ratio
        = FloatRatio.finite 4) := by
  refine ⟨⟨by decide, ?_, ?_⟩, ⟨by decide, ?_⟩, ⟨by decide, ?_⟩⟩
  · exact (C7_dominance_ratio_zero_cases lvlZero).1 (by decide) _
  · exact (C7_dominance_ratio_zero_cases lvlZero).1 (by decide) _
  · have h := (C7_dominance_ratio_zero_cases lvlAskOnly).2.1 (by decide)
    rw [h]; norm_num [lvlAskOnly]
  · have h := (C7_dominance_ratio_zero_cases lvlBidOnly).2.2 (by decide)
    rw [h]; norm_num [lvlBidOnly]

/-- C8: on a bar with no price levels, `update_bar_statistics` only sets
`is_up_bar` to `close ≥ open` and leaves every other field untouched. -/
theorem C8_empty_levels_frame (vap : ℚ) (bar : FootprintBar)
    (h : bar.price_levels = []) :
    updateBarStatistics vap bar =
      { bar with is_up_bar := decide (bar.open_price ≤ bar.close_price) } := by
  simp [updateBarStatistics, h]

/-- Witness for C8 on a freshly created bar. -/
theorem C8_witness :
    barEmptyLevels.price_levels = [] ∧
    updateBarStatistics (7/10) barEmptyLevels =
      { barEmptyLevels with
        is_up_bar := decide (barEmptyLevels.open_price ≤ barEmptyLevels.close_price) } :=
  ⟨rfl, C8_empty_levels_frame (7/10) barEmptyLevels rfl⟩

/-! ## Claim C2: TICK-mode boundary semantics -/

/-- Invariant of TICK mode: finalized bars hold exactly `N` ticks, the
in-progress bar between `1` and `N`. -/
theorem tickMode_processTick_inv {cfg : FootprintEngineConfig} {N : ℤ}
    (hagg : cfg.aggregation = Aggregation.tick N) (hN : 1 ≤ N)
    {s : EngineState}
    (hs : (∀ b ∈ s.bars, b.tick_count = N) ∧
      (∀ b, s.current_bar = some b → 1 ≤ b.tick_count ∧ b.tick_count ≤ N))
    (tk : Tick) :
    (∀ b ∈ (processTick cfg s tk).bars, b.tick_count = N) ∧
    (∀ b, (processTick cfg s tk).current_bar = some b →
      1 ≤ b.tick_count ∧ b.tick_count ≤ N) := by
  obtain ⟨hbars, hcur⟩ := hs
  have hfold1 : ∀ t p, (foldTickIntoBar cfg tk (createNewBar cfg t p)).tick_count = 1 := by
    intro t p
    rw [(foldTickIntoBar_counters cfg tk _).1, (createNewBar_fields cfg t p).1]
    omega
  unfold processTick
  rcases hc : s.current_bar with _ | b
  · refine ⟨fun b2 hb2 => hbars b2 hb2, ?_⟩
    intro b2 hb2
    simp only [Option.some.injEq] at hb2
    subst hb2
    rw [hfold1]
    omega
  · by_cases hcross : shouldCreateNewBar cfg b tk.timestamp
    · simp only [hc, hcross, if_true]
      have hNle : N ≤ b.tick_count := by
        rw [shouldCreateNewBar, hagg] at hcross
        exact of_decide_eq_true hcross
      have hbN : b.tick_count = N := le_antisymm (hcur b hc).2 hNle
      refine ⟨?_, ?_⟩
      · intro b2 hb2
        rcases mem_bars_finalize (by simpa using hb2) with h3 | ⟨b3, hb3, rfl⟩
        · exact hbars b2 h3
        · simp only [hc, Option.some.injEq] at hb3
          rw [(updateBarStatistics_frame _ _).2.2.2.2.2.2.2.1, ← hb3, hbN]
      · intro b2 hb2
        simp only [Option.some.injEq] at hb2
        subst hb2
        rw [hfold1]
        omega
    · simp only [hc, Bool.not_eq_true] at hcross
      simp only [hc, hcross, Bool.false_eq_true, if_false]
      refine ⟨fun b2 hb2 => hbars b2 hb2, ?_⟩
      intro b2 hb2
      simp only [Option.some.injEq] at hb2
      subst hb2
      rw [(foldTickIntoBar_counters cfg tk b).1]
      have hlt : ¬ N ≤ b.tick_count := by
        rw [shouldCreateNewBar, hagg] at hcross
        simpa using hcross
      have := (hcur b hc).1
      omega

/-- C2: in TICK mode with threshold `N ≥ 1`, the boundary is checked before
the incoming tick is folded in.  Over any tick stream from a fresh engine,
every finalized bar has `tick_count = N` exactly, and processing one more tick
while the in-progress bar sits at `tick_count = N` finalizes it and starts a
new bar holding exactly that one tick (`tick_count = 1`). -/
theorem C2_tick_mode_boundary (cfg : FootprintEngineConfig) (N : ℤ)
    (hagg : cfg.aggregation = Aggregation.tick N) (hN : 1 ≤ N)
    (ticks : List Tick) :
    (∀ b ∈ (processTicks cfg initState ticks).bars, b.tick_count = N) ∧
    (∀ b, (processTicks cfg initState ticks).current_bar = some b →
      1 ≤ b.tick_count ∧ b.tick_count ≤ N) ∧
    (∀ tk b, (processTicks cfg initState ticks).current_bar = some b →
      b.tick_count = N →
      ∃ b', (processTick cfg (processTicks cfg initState ticks) tk).current_bar = some b' ∧
        b'.tick_count = 1) := by
  have hinv : (∀ b ∈ (processTicks cfg initState ticks).bars, b.tick_count = N) ∧
      (∀ b, (processTicks cfg initState ticks).current_bar = some b →
        1 ≤ b.tick_count ∧ b.tick_count ≤ N) := by
    suffices h : ∀ s : EngineState,
        ((∀ b ∈ s.bars, b.tick_count = N) ∧
          (∀ b, s.current_bar = some b → 1 ≤ b.tick_count ∧ b.tick_count ≤ N)) →
        ((∀ b ∈ (processTicks cfg s ticks).bars, b.tick_count = N) ∧
          (∀ b, (processTicks cfg s ticks).current_bar = some b →
            1 ≤ b.tick_count ∧ b.tick_count ≤ N)) by
      refine h initState ⟨?_, ?_⟩ <;> simp [initState]
    induction ticks with
    | nil => exact fun s hs => hs
    | cons tk ticks ih =>
      intro s hs
      exact ih _ (tickMode_processTick_inv hagg hN hs tk)
  refine ⟨hinv.1, hinv.2, ?_⟩
  intro tk b hc hbN
  have hcross : shouldCreateNewBar cfg b tk.timestamp = true := by
    rw [shouldCreateNewBar, hagg, hbN]
    simp
  refine ⟨foldTickIntoBar cfg tk (createNewBar cfg tk.timestamp tk.price), ?_, ?_⟩
  · unfold processTick
    rw [hc]
    simp only [hcross, if_true]
  · rw [(foldTickIntoBar_counters cfg tk _).1, (createNewBar_fields cfg _ _).1]
    omega

/-- Witness for C2 on the repository's own 4-tick TICK-mode stream:
the finalized bar holds 3 ticks and the in-progress bar 1. -/
theorem C2_witness :
    cfgTick3.aggregation = Aggregation.tick 3 ∧ (1:ℤ) ≤ 3 ∧
    (∀ b ∈ (processTicks cfgTick3 initState ticksTick4).bars, b.tick_count = 3) ∧
    (∀ b, (processTicks cfgTick3 initState ticksTick4).current_bar = some b →
      1 ≤ b.tick_count ∧ b.tick_count ≤ 3) := by
  have h := C2_tick_mode_boundary cfgTick3 3 rfl (by norm_num) ticksTick4
  exact ⟨rfl, by norm_num, h.1, h.2.1⟩

/-! ## Claim C3: TIME-mode boundary semantics -/

/-- Flooring to a multiple of `d` stays within `d` below the original. -/
theorem lt_floor_add (t d : ℕ) (hd : 0 < d) : t < t / d * d + d := by
  have h1 := Nat.div_add_mod t d
  have h2 := Nat.mod_lt t hd
  have h3 : t / d * d = d * (t / d) := Nat.mul_comm _ _
  omega

/-- Invariant of TIME mode: every bar's last-tick time is strictly inside
`[start_time, start_time + d)`. -/
theorem timeMode_processTick_inv {cfg : FootprintEngineConfig} {d : ℕ}
    (hagg : cfg.aggregation = Aggregation.time d) (hd : 0 < d)
    {s : EngineState}
    (hs : (∀ b ∈ s.bars, b.end_time < b.start_time + d) ∧
      (∀ b, s.current_bar = some b → b.end_time < b.start_time + d))
    (tk : Tick) :
    (∀ b ∈ (processTick cfg s tk).bars, b.end_time < b.start_time + d) ∧
    (∀ b, (processTick cfg s tk).current_bar = some b →
      b.end_time < b.start_time + d) := by
  obtain ⟨hbars, hcur⟩ := hs
  have hfresh : ∀ p,
      (foldTickIntoBar cfg tk (createNewBar cfg tk.timestamp p)).end_time <
        (foldTickIntoBar cfg tk (createNewBar cfg tk.timestamp p)).start_time + d := by
    intro p
    rw [(foldTickIntoBar_counters cfg tk _).2.2.2.1,
      (foldTickIntoBar_counters cfg tk _).2.2.1]
    show tk.timestamp < (createNewBar cfg tk.timestamp p).start_time + d
    rw [createNewBar, hagg]
    exact lt_floor_add tk.timestamp d hd
  unfold processTick
  rcases hc : s.current_bar with _ | b
  · refine ⟨fun b2 hb2 => hbars b2 hb2, ?_⟩
    intro b2 hb2
    simp only [Option.some.injEq] at hb2
    exact hb2 ▸ hfresh tk.price
  · by_cases hcross : shouldCreateNewBar cfg b tk.timestamp
    · simp only [hc, hcross, if_true]
      refine ⟨?_, ?_⟩
      · intro b2 hb2
        rcases mem_bars_finalize (by simpa using hb2) with h3 | ⟨b3, hb3, rfl⟩
        · exact hbars b2 h3
        · simp only [hc, Option.some.injEq] at hb3
          rw [(updateBarStatistics_frame _ _).2.1, (updateBarStatistics_frame _ _).1, ← hb3]
          exact hcur b hc
      · intro b2 hb2
        simp only [Option.some.injEq] at hb2
        exact hb2 ▸ hfresh tk.price
    · simp only [hc, Bool.not_eq_true] at hcross
      simp only [hc, hcross, Bool.false_eq_true, if_false]
      refine ⟨fun b2 hb2 => hbars b2 hb2, ?_⟩
      intro b2 hb2
      simp only [Option.some.injEq] at hb2
      subst hb2
      rw [(foldTickIntoBar_counters cfg tk b).2.2.2.1,
        (foldTickIntoBar_counters cfg tk b).2.2.1]
      rw [shouldCreateNewBar, hagg] at hcross
      have : ¬ (b.start_time + d ≤ tk.timestamp) := by simpa using hcross
      omega

/-- C3: in TIME mode with duration `d > 0`, over any non-decreasing tick
stream from a fresh engine: a bar's start time is the creating tick's
timestamp floored to the duration, the boundary fires exactly when a
timestamp reaches `start_time + d`, and consequently no bar — finalized or in
progress — ever absorbed a tick at or past `start_time + d` (its `end_time`,
the timestamp of its last tick, stays strictly below). -/
theorem C3_time_mode (cfg : FootprintEngineConfig) (d : ℕ)
    (hagg : cfg.aggregation = Aggregation.time d) (hd : 0 < d)
    (ticks : List Tick)
    (hmono : ticks.Chain' (fun a b => a.timestamp ≤ b.timestamp)) :
    (∀ (t : ℕ) (p : ℚ), (createNewBar cfg t p).start_time = t / d * d) ∧
    (∀ (b : FootprintBar) (t : ℕ),
      shouldCreateNewBar cfg b t = decide (b.start_time + d ≤ t)) ∧
    (∀ b ∈ (processTicks cfg initState ticks).bars, b.end_time < b.start_time + d) ∧
    (∀ b, (processTicks cfg initState ticks).current_bar = some b →
      b.end_time < b.start_time + d) := by
  refine ⟨?_, ?_, ?_⟩
  · intro t p
    rw [createNewBar, hagg]
  · intro b t
    rw [shouldCreateNewBar, hagg]
  · suffices h : ∀ s : EngineState,
        ((∀ b ∈ s.bars, b.end_time < b.start_time + d) ∧
          (∀ b, s.current_bar = some b → b.end_time < b.start_time + d)) →
        ((∀ b ∈ (processTicks cfg s ticks).bars, b.end_time < b.start_time + d) ∧
          (∀ b, (processTicks cfg s ticks).current_bar = some b →
            b.end_time < b.start_time + d)) by
      refine h initState ⟨?_, ?_⟩ <;> simp [initState]
    clear hmono
    induction ticks with
    | nil => exact fun s hs => hs
    | cons tk ticks ih =>
      intro s hs
      exact ih _ (timeMode_processTick_inv hagg hd hs tk)

/-- Witness for C3 on the 1-minute example stream. -/
theorem C3_witness :
    cfgExample.aggregation = Aggregation.time 60 ∧ 0 < 60 ∧
    (ticksExample 61).Chain' (fun a b => a.timestamp ≤ b.timestamp) ∧
    (∀ b ∈ (processTicks cfgExample initState (ticksExample 61)).bars,
      b.end_time < b.start_time + 60) := by
  have hchain : (ticksExample 61).Chain' (fun a b => a.timestamp ≤ b.timestamp) := by
    norm_num [ticksExample, List.chain'_cons]
  refine ⟨rfl, by norm_num, hchain, ?_⟩
  exact (C3_time_mode cfgExample 60 rfl (by norm_num) (ticksExample 61) hchain).2.2.1

/-! ## Claim C5: bounded FIFO history -/

theorem length_lastN (M : ℕ) (l : List α) : (lastN M l).length ≤ M := by
  simp only [lastN, List.length_drop]
  omega

/-- Appending one element and then evicting the head exactly when the bound
is exceeded keeps "the `M` most recent elements". -/
theorem lastN_snoc (M : ℕ) (g : List α) (b : α) :
    (if M < (lastN M g ++ [b]).length then (lastN M g ++ [b]).drop 1
     else lastN M g ++ [b]) = lastN M (g ++ [b]) := by
  by_cases hM0 : M = 0
  · subst hM0
    simp [lastN, List.drop_length]
  · simp only [lastN, List.length_append, List.length_drop, List.length_singleton]
    by_cases h : g.length < M
    · rw [if_neg (by omega)]
      have h0 : g.length - M = 0 := by omega
      have h1 : g.length + 1 - M = 0 := by omega
      simp [h0, h1]
    · rw [if_pos (by omega)]
      rw [List.drop_append_eq_append_drop, List.drop_append_eq_append_drop,
        List.drop_drop, List.length_drop]
      have h1 : 1 - (g.length - (g.length - M)) = 0 := by omega
      have h2 : g.length + 1 - M - g.length = 0 := by omega
      simp only [h1, h2, List.drop_zero, List.drop_nil, List.append_nil]
      have h4 : g.length - M + 1 = g.length + 1 - M := by omega
      rw [h4]

theorem finalizeCurrentBar_bars (cfg : FootprintEngineConfig) (s : EngineState) :
    (finalizeCurrentBar cfg s).bars =
      match s.current_bar with
      | none => s.bars
      | some b =>
        if cfg.max_bars_in_memory <
            (s.bars ++ [updateBarStatistics cfg.value_area_percentage b]).length then
          (s.bars ++ [updateBarStatistics cfg.value_area_percentage b]).drop 1
        else s.bars ++ [updateBarStatistics cfg.value_area_percentage b] := by
  unfold finalizeCurrentBar
  rcases hc : s.current_bar with _ | b <;> simp

theorem processTick_bars (cfg : FootprintEngineConfig) (s : EngineState) (tk : Tick) :
    (processTick cfg s tk).bars =
      match s.current_bar with
      | none => s.bars
      | some b =>
        if shouldCreateNewBar cfg b tk.timestamp then (finalizeCurrentBar cfg s).bars
        else s.bars := by
  unfold processTick
  rcases hc : s.current_bar with _ | b
  · simp
  · by_cases hcross : shouldCreateNewBar cfg b tk.timestamp
    · simp only [hc, hcross, if_true]
      rw [finalizeCurrentBar_bars, finalizeCurrentBar_bars]
      simp [hc]
    · simp only [hc, Bool.not_eq_true] at hcross
      simp [hc, hcross]

theorem ghostTick_bars_inv (cfg : FootprintEngineConfig) {M : ℕ}
    (hM : cfg.max_bars_in_memory = M) {sg : EngineState × List FootprintBar}
    (h : sg.1.bars = lastN M sg.2) (tk : Tick) :
    (ghostTick cfg sg tk).1.bars = lastN M (ghostTick cfg sg tk).2 := by
  unfold ghostTick
  simp only
  rw [processTick_bars]
  rcases hc : sg.1.current_bar with _ | b
  · simpa using h
  · by_cases hcross : shouldCreateNewBar cfg b tk.timestamp
    · simp only [hcross, if_true]
      rw [finalizeCurrentBar_bars]
      simp only [hc, h, hM]
      exact lastN_snoc M sg.2 _
    · simp only [hcross, Bool.false_eq_true, if_false]
      simpa using h

theorem ghostTicks_fst (cfg : FootprintEngineConfig) (ticks : List Tick) :
    ∀ sg : EngineState × List FootprintBar,
      (ticks.foldl (ghostTick cfg) sg).1 = ticks.foldl (processTick cfg) sg.1 := by
  induction ticks with
  | nil => intro sg; rfl
  | cons tk ticks ih => intro sg; exact ih _

theorem ghostTicks_inv (cfg : FootprintEngineConfig) {M : ℕ}
    (hM : cfg.max_bars_in_memory = M) (ticks : List Tick) :
    ∀ sg : EngineState × List FootprintBar, sg.1.bars = lastN M sg.2 →
      (ticks.foldl (ghostTick cfg) sg).1.bars =
        lastN M (ticks.foldl (ghostTick cfg) sg).2 := by
  induction ticks with
  | nil => exact fun sg h => h
  | cons tk ticks ih =>
    intro sg h
    exact ih _ (ghostTick_bars_inv cfg hM h tk)

theorem processTickBatch_bars (cfg : FootprintEngineConfig) (s : EngineState)
    (ticks : List Tick) :
    (processTickBatch cfg s ticks).bars = (ticks.foldl (processTick cfg) s).bars := by
  unfold processTickBatch
  rcases hc : (ticks.foldl (processTick cfg) s).current_bar with _ | b <;> simp [hc]

theorem ghostOp_fst (cfg : FootprintEngineConfig)
    (sg : EngineState × List FootprintBar) (op : EngineOp) :
    (ghostOp cfg sg op).1 = applyOp cfg sg.1 op := by
  cases op <;> rfl

theorem ghostOp_inv (cfg : FootprintEngineConfig) {M : ℕ}
    (hM : cfg.max_bars_in_memory = M) {sg : EngineState × List FootprintBar}
    (h : sg.1.bars = lastN M sg.2) (op : EngineOp) :
    (ghostOp cfg sg op).1.bars = lastN M (ghostOp cfg sg op).2 := by
  cases op with
  | tick tk => exact ghostTick_bars_inv cfg hM h tk
  | batch ticks =>
    show (processTickBatch cfg sg.1 ticks).bars = _
    rw [processTickBatch_bars, ← ghostTicks_fst cfg ticks sg]
    exact ghostTicks_inv cfg hM ticks sg h
  | finalize =>
    simp only [ghostOp]
    rw [finalizeCurrentBar_bars]
    rcases hc : sg.1.current_bar with _ | b
    · simp only [hc]
      exact h
    · simp only [hc, hM, h]
      exact lastN_snoc M sg.2 _

theorem ghostRun_fst (cfg : FootprintEngineConfig) (ops : List EngineOp) :
    ∀ sg : EngineState × List FootprintBar,
      (ghostRun cfg sg ops).1 = runOps cfg sg.1 ops := by
  induction ops with
  | nil => intro sg; rfl
  | cons op ops ih =>
    intro sg
    show (ghostRun cfg (ghostOp cfg sg op) ops).1 = _
    rw [ih, ghostOp_fst]
    rfl

theorem ghostRun_inv (cfg : FootprintEngineConfig) {M : ℕ}
    (hM : cfg.max_bars_in_memory = M) (ops : List EngineOp) :
    ∀ sg : EngineState × List FootprintBar, sg.1.bars = lastN M sg.2 →
      (ghostRun cfg sg ops).1.bars = lastN M (ghostRun cfg sg ops).2 := by
  induction ops with
  | nil => exact fun sg h => h
  | cons op ops ih =>
    intro sg h
    exact ih _ (ghostOp_inv cfg hM h op)

/-- C5: with `max_bars_in_memory = M ≥ 1`, over every sequence of
`process_tick` / batch / finalize operations the finalized history never
exceeds `M` bars, and it is exactly the `M` most recently finalized bars in
finalization (insertion) order: the state's `bars` equal `lastN M` of the
unbounded ghost history, and a finalization at the bound evicts exactly the
oldest bar. -/
theorem C5_history_bounded_fifo (cfg : FootprintEngineConfig) (M : ℕ)
    (hM : cfg.max_bars_in_memory = M) (h1 : 1 ≤ M) (ops : List EngineOp) :
    (runOps cfg initState ops).bars.length ≤ M ∧
    (runOps cfg initState ops).bars =
      lastN M (ghostRun cfg (initState, []) ops).2 ∧
    (∀ (s : EngineState) (b : FootprintBar), s.current_bar = some b →
      s.bars.length = M →
      (finalizeCurrentBar cfg s).bars =
        s.bars.drop 1 ++ [updateBarStatistics cfg.value_area_percentage b]) := by
  have hbase : (initState, ([] : List FootprintBar)).1.bars = lastN M [] := by
    simp [initState, lastN]
  have hinv := ghostRun_inv cfg hM ops (initState, []) hbase
  rw [ghostRun_fst] at hinv
  refine ⟨?_, hinv, ?_⟩
  · rw [hinv]
    exact length_lastN M _
  · intro s b hc hlen
    rw [finalizeCurrentBar_bars]
    simp only [hc]
    rw [if_pos (by simp [hlen]; omega)]
    rw [List.drop_append_eq_append_drop]
    have : 1 - s.bars.length = 0 := by omega
    simp [this]

/-- Witness for C5: three finalizations against a bound of 2 keep the two
most recent bars. -/
theorem C5_witness :
    cfgTick3.max_bars_in_memory = 10000 ∧ 1 ≤ 10000 ∧
    (runOps cfgTick3 initState
        [EngineOp.batch ticksTick4, EngineOp.finalize]).bars.length ≤ 10000 :=
  ⟨rfl, by norm_num,
   (C5_history_bounded_fifo cfgTick3 10000 rfl (by norm_num)
     [EngineOp.batch ticksTick4, EngineOp.finalize]).1⟩

/-! ## Claim C6: handling of non-positive-volume ticks -/

/-- Counterexample to C6 as stated: `process_tick` contains no volume
validation.  Feeding a zero-volume tick to a fresh engine does NOT leave the
state unchanged: an in-progress bar appears, holding that tick. -/
theorem C6_counterexample :
    tickZeroVolume.volume ≤ 0 ∧
    initState.current_bar = none ∧
    ((processTick cfgTick3 initState tickZeroVolume).current_bar.map
        FootprintBar.tick_count) = some 1 := by
  decide

/-- C6 amended: `process_tick` does not reject a non-positive-volume tick; it
is folded in like any other tick — the in-progress bar's `tick_count` rises by
one, its aggregated volume absorbs the (non-positive) volume, and the
finalized history is untouched, so a batch holding such a tick still runs to
completion. -/
theorem C6_nonpositive_volume_not_rejected (cfg : FootprintEngineConfig)
    (s : EngineState) (b : FootprintBar) (tk : Tick)
    (hvol : tk.volume ≤ 0) (hc : s.current_bar = some b)
    (hnb : shouldCreateNewBar cfg b tk.timestamp = false) :
    (processTick cfg s tk).current_bar = some (foldTickIntoBar cfg tk b) ∧
    (foldTickIntoBar cfg tk b).tick_count = b.tick_count + 1 ∧
    (foldTickIntoBar cfg tk b).current_aggregated_volume
      = b.current_aggregated_volume + tk.volume ∧
    (processTick cfg s tk).bars = s.bars := by
  have hcur : (processTick cfg s tk).current_bar = some (foldTickIntoBar cfg tk b) := by
    unfold processTick
    simp [hc, hnb]
  refine ⟨hcur, (foldTickIntoBar_counters cfg tk b).1,
    (foldTickIntoBar_counters cfg tk b).2.1, ?_⟩
  rw [processTick_bars]
  simp [hc, hnb]

/-- Witness for C6 (amended) at a concrete state and zero-volume tick. -/
theorem C6_witness :
    (tickZeroVolume.volume ≤ 0 ∧
      stateOneTick.current_bar = some barOneTick ∧
      shouldCreateNewBar cfgTick3 barOneTick tickZeroVolume.timestamp = false) ∧
    (processTick cfgTick3 stateOneTick tickZeroVolume).current_bar
      = some (foldTickIntoBar cfgTick3 tickZeroVolume barOneTick) ∧
    (foldTickIntoBar cfgTick3 tickZeroVolume barOneTick).tick_count
      = barOneTick.tick_count + 1 := by
  refine ⟨⟨by decide, rfl, by with_unfolding_all decide⟩, ?_, ?_⟩
  · exact (C6_nonpositive_volume_not_rejected cfgTick3 stateOneTick barOneTick
      tickZeroVolume (by decide) rfl (by with_unfolding_all decide)).1
  · exact (C6_nonpositive_volume_not_rejected cfgTick3 stateOneTick barOneTick
      tickZeroVolume (by decide) rfl (by with_unfolding_all decide)).2.1

/-! ## Claim C10: POC tie-breaking -/

/-- Python's `max` with a key keeps the first element attaining the maximum:
`pocLevelAux best ls` is the element of `best :: ls` with maximal
`total_volume` whose index is smallest. -/
theorem pocLevelAux_first_max (ls : List PriceLevelData) :
    ∀ best : PriceLevelData,
      ∃ i : ℕ, ∃ h : i < (best :: ls).length,
        pocLevelAux best ls = (best :: ls).get ⟨i, h⟩ ∧
        (∀ x ∈ best :: ls,
          x.total_volume ≤ (pocLevelAux best ls).total_volume) ∧
        (∀ j (hj : j < (best :: ls).length), j < i →
          ((best :: ls).get ⟨j, hj⟩).total_volume
            < (pocLevelAux best ls).total_volume) := by
  induction ls with
  | nil =>
    intro best
    refine ⟨0, by simp, rfl, ?_, ?_⟩
    · intro x hx
      simp only [List.mem_singleton] at hx
      subst hx
      exact le_refl _
    · intro j hj hj0
      omega
  | cons l ls ih =>
    intro best
    have hrec : pocLevelAux best (l :: ls) =
        pocLevelAux (if best.total_volume < l.total_volume then l else best) ls := rfl
    obtain ⟨i', hi', heq, hmax, hfirst⟩ :=
      ih (if best.total_volume < l.total_volume then l else best)
    by_cases hbl : best.total_volume < l.total_volume
    · rw [if_pos hbl] at heq hmax hfirst
      rcases i' with _ | k
      · -- the recursive winner is `l` itself, sitting at index 1
        refine ⟨1, by simp, ?_, ?_, ?_⟩
        · simpa [hrec, hbl] using heq
        · intro x hx
          rw [hrec, if_pos hbl]
          rcases List.mem_cons.1 hx with rfl | hx'
          · have hl : l.total_volume ≤ (pocLevelAux l ls).total_volume :=
              hmax l (List.mem_cons_self _ _)
            exact le_of_lt (lt_of_lt_of_le hbl hl)
          · exact hmax x hx'
        · intro j hj hj1
          interval_cases j
          rw [hrec, if_pos hbl]
          show best.total_volume < _
          exact lt_of_lt_of_le hbl (hmax l (List.mem_cons_self _ _))
      · -- the recursive winner sits inside `ls`, at index `k` there
        have hk : k < ls.length := by simpa using hi'
        refine ⟨k + 2, by simpa using hk, ?_, ?_, ?_⟩
        · simpa [hrec, hbl] using heq
        · intro x hx
          rw [hrec, if_pos hbl]
          rcases List.mem_cons.1 hx with rfl | hx'
          · have hl : l.total_volume ≤ (pocLevelAux l ls).total_volume :=
              hmax l (List.mem_cons_self _ _)
            exact le_of_lt (lt_of_lt_of_le hbl hl)
          · exact hmax x hx'
        · intro j hj hjk
          rw [hrec, if_pos hbl]
          have hlr : l.total_volume < (pocLevelAux l ls).total_volume := by
            have := hfirst 0 (by simp) (by omega)
            simpa using this
          rcases j with _ | j1
          · exact lt_trans hbl hlr
          · rcases j1 with _ | j2
            · simpa using hlr
            · have := hfirst (j2 + 1) (by simpa using (by omega : j2 + 1 < ls.length + 1))
                (by omega)
              simpa using this
    · rw [if_neg hbl] at heq hmax hfirst
      push_neg at hbl
      rcases i' with _ | k
      · -- the recursive winner is `best`, still at index 0
        refine ⟨0, by simp, ?_, ?_, ?_⟩
        · simpa [hrec, if_neg (not_lt.2 hbl)] using heq
        · intro x hx
          rw [hrec, if_neg (not_lt.2 hbl)]
          rcases List.mem_cons.1 hx with rfl | hx'
          · exact hmax x (List.mem_cons_self _ _)
          · rcases List.mem_cons.1 hx' with rfl | hx2
            · have hb : best.total_volume ≤ (pocLevelAux best ls).total_volume :=
                hmax best (List.mem_cons_self _ _)
              exact le_trans hbl hb
            · exact hmax x (List.mem_cons_of_mem _ hx2)
        · intro j hj hj0
          omega
      · -- the recursive winner sits inside `ls`
        have hk : k < ls.length := by simpa using hi'
        refine ⟨k + 2, by simpa using hk, ?_, ?_, ?_⟩
        · simpa [hrec, if_neg (not_lt.2 hbl)] using heq
        · intro x hx
          rw [hrec, if_neg (not_lt.2 hbl)]
          rcases List.mem_cons.1 hx with rfl | hx'
          · exact hmax x (List.mem_cons_self _ _)
          · rcases List.mem_cons.1 hx' with rfl | hx2
            · have hb : best.total_volume ≤ (pocLevelAux best ls).total_volume :=
                hmax best (List.mem_cons_self _ _)
              exact le_trans hbl hb
            · exact hmax x (List.mem_cons_of_mem _ hx2)
        · intro j hj hjk
          rw [hrec, if_neg (not_lt.2 hbl)]
          have hbr : best.total_volume < (pocLevelAux best ls).total_volume := by
            have := hfirst 0 (by simp) (by omega)
            simpa using this
          rcases j with _ | j1
          · simpa using hbr
          · rcases j1 with _ | j2
            · exact lt_of_le_of_lt hbl hbr
            · have := hfirst (j2 + 1) (by simpa using (by omega : j2 + 1 < ls.length + 1))
                (by omega)
              simpa using this

/-- On a non-empty dict, `update_bar_statistics` sets `poc_price` to the price
of `max(price_levels.values(), key=total_volume)`. -/
theorem updateBarStatistics_poc (vap : ℚ) (bar : FootprintBar)
    (hd : PriceLevelData) (tl : List PriceLevelData)
    (h : bar.price_levels = hd :: tl) :
    (updateBarStatistics vap bar).poc_price = some (pocLevelAux hd tl).price := by
  simp only [updateBarStatistics, h]
  rw [if_neg (by simp)]
  norm_num [pocLevel]
  split <;> simp

/-- C10: when levels tie on maximal `total_volume`, the POC is the price of
the tied level that was inserted FIRST into the bar's dict (Python `max`
keeps the first maximal element of iteration = insertion order), not e.g. the
lowest tied price: the chosen index `i` carries the maximum and every earlier
index is strictly smaller. -/
theorem C10_poc_first_inserted (vap : ℚ) (bar : FootprintBar)
    (hne : bar.price_levels ≠ []) :
    ∃ i : ℕ, ∃ h : i < bar.price_levels.length,
      (updateBarStatistics vap bar).poc_price
        = some ((bar.price_levels.get ⟨i, h⟩).price) ∧
      (∀ x ∈ bar.price_levels,
        x.total_volume ≤ (bar.price_levels.get ⟨i, h⟩).total_volume) ∧
      (∀ j (hj : j < bar.price_levels.length), j < i →
        (bar.price_levels.get ⟨j, hj⟩).total_volume
          < (bar.price_levels.get ⟨i, h⟩).total_volume) := by
  rcases hpls : bar.price_levels with _ | ⟨hd, tl⟩
  · exact absurd hpls hne
  · obtain ⟨i, hi, heq, hmax, hfirst⟩ := pocLevelAux_first_max tl hd
    refine ⟨i, hi, ?_, ?_, ?_⟩
    · rw [updateBarStatistics_poc vap bar hd tl hpls, heq]
    · intro x hx
      rw [← heq]
      exact hmax x hx
    · intro j hj hji
      rw [← heq]
      exact hfirst j hj hji

/-- Witness for C10: two levels tie at volume 10; insertion order is
`[101, 100]`, and the POC is 101 — the first-inserted price, not the lowest. -/
theorem C10_witness :
    barTie.price_levels ≠ [] ∧
    lvlTieHigh.total_volume = lvlTieLow.total_volume ∧
    (updateBarStatistics (7/10) barTie).poc_price = some 101 ∧
    (∃ i : ℕ, ∃ h : i < barTie.price_levels.length,
      (updateBarStatistics (7/10) barTie).poc_price
        = some ((barTie.price_levels.get ⟨i, h⟩).price) ∧
      (∀ x ∈ barTie.price_levels,
        x.total_volume ≤ (barTie.price_levels.get ⟨i, h⟩).total_volume) ∧
      (∀ j (hj : j < barTie.price_levels.length), j < i →
        (barTie.price_levels.get ⟨j, hj⟩).total_volume
          < (barTie.price_levels.get ⟨i, h⟩).total_volume)) :=
  ⟨by decide, by decide, by decide,
   C10_poc_first_inserted (7/10) barTie (by decide)⟩

/-! ## Claim C9: the end-to-end example -/

/-- C9: the four example ticks under TIME/"1min", tick size 0.25, with the
fourth tick at least 60 s after the first, produce exactly one completed bar
with `total_bar_volume = 23`, `bar_delta = 13` and two price levels, and leave
an in-progress bar opened at 101.00. -/
theorem C9_end_to_end (t4 : ℕ) (h4 : 60 ≤ t4) :
    (processTickBatch cfgExample initState (ticksExample t4)).bars.length = 1 ∧
    ((processTickBatch cfgExample initState (ticksExample t4)).bars.map
        FootprintBar.total_bar_volume) = [23] ∧
    ((processTickBatch cfgExample initState (ticksExample t4)).bars.map
        FootprintBar.bar_delta) = [13] ∧
    ((processTickBatch cfgExample initState (ticksExample t4)).bars.map
        (fun b => b.price_levels.length)) = [2] ∧
    ((processTickBatch cfgExample initState (ticksExample t4)).current_bar.map
        FootprintBar.open_price) = some 101 := by
  have hcur : stateAfter3.current_bar = some barAfter3 := rfl
  have hcross : shouldCreateNewBar cfgExample barAfter3 t4 = true := by
    show decide ((0:ℕ) + 60 ≤ t4) = true
    simpa using h4
  have hbars : (processTickBatch cfgExample initState (ticksExample t4)).bars
      = [updateBarStatistics cfgExample.value_area_percentage barAfter3] := by
    have h1 : (processTickBatch cfgExample initState (ticksExample t4)).bars
        = (processTick cfgExample stateAfter3 (tickFour t4)).bars :=
      processTickBatch_bars cfgExample initState (ticksExample t4)
    rw [h1, processTick_bars]
    simp only [hcur, tickFour, hcross, if_true]
    rw [finalizeCurrentBar_bars]
    simp only [hcur]
    have hmax : cfgExample.max_bars_in_memory = 10000 := rfl
    have hb0 : stateAfter3.bars = [] := rfl
    rw [hb0, hmax]
    norm_num
  have hscur : (processTick cfgExample stateAfter3 (tickFour t4)).current_bar
      = some (foldTickIntoBar cfgExample (tickFour t4)
          (createNewBar cfgExample t4 101)) := by
    unfold processTick
    simp only [hcur, tickFour, hcross, if_true]
  have hbatchcur : (processTickBatch cfgExample initState (ticksExample t4)).current_bar
      = some (updateBarStatistics cfgExample.value_area_percentage
          (foldTickIntoBar cfgExample (tickFour t4)
            (createNewBar cfgExample t4 101))) := by
    have h1 : (ticksExample t4).foldl (processTick cfgExample) initState
        = processTick cfgExample stateAfter3 (tickFour t4) := rfl
    simp only [processTickBatch, h1, hscur]
  refine ⟨?_, ?_, ?_, ?_, ?_⟩
  · rw [hbars]; rfl
  · rw [hbars]
    show [(updateBarStatistics cfgExample.value_area_percentage barAfter3).total_bar_volume] = [23]
    have : (updateBarStatistics cfgExample.value_area_percentage barAfter3).total_bar_volume = 23 := by
      with_unfolding_all decide
    rw [this]
  · rw [hbars]
    show [(updateBarStatistics cfgExample.value_area_percentage barAfter3).bar_delta] = [13]
    have : (updateBarStatistics cfgExample.value_area_percentage barAfter3).bar_delta = 13 := by
      with_unfolding_all decide
    rw [this]
  · rw [hbars]
    show [(updateBarStatistics cfgExample.value_area_percentage barAfter3).price_levels.length] = [2]
    have : (updateBarStatistics cfgExample.value_area_percentage barAfter3).price_levels.length = 2 := by
      with_unfolding_all decide
    rw [this]
  · rw [hbatchcur]
    show some (updateBarStatistics cfgExample.value_area_percentage
        (foldTickIntoBar cfgExample (tickFour t4)
          (createNewBar cfgExample t4 101))).open_price = some 101
    rw [(updateBarStatistics_frame _ _).2.2.1, (foldTickIntoBar_counters _ _ _).2.2.2.2.1]
    have : quantize cfgExample.tick_size 101 = 101 := by with_unfolding_all decide
    rw [(createNewBar_fields cfgExample t4 101).2.2.2.2, this]

/-- Witness for C9 at the earliest admissible fourth timestamp, 60 s. -/
theorem C9_witness :
    60 ≤ 60 ∧
    (processTickBatch cfgExample initState (ticksExample 60)).bars.length = 1 ∧
    ((processTickBatch cfgExample initState (ticksExample 60)).current_bar.map
        FootprintBar.open_price) = some 101 :=
  ⟨by norm_num, (C9_end_to_end 60 (by norm_num)).1,
   (C9_end_to_end 60 (by norm_num)).2.2.2.2⟩

/-! ## Claim C1: Value-Area correctness -/

/-- Dict lookup by a stored level's own price, under key uniqueness. -/
theorem volAt_eq {pls : List PriceLevelData}
    (hnd : (pls.map PriceLevelData.price).Nodup)
    {l : PriceLevelData} (hl : l ∈ pls) : volAt pls l.price = l.total_volume := by
  induction pls with
  | nil => simp at hl
  | cons a as ih =>
    simp only [List.map_cons, List.nodup_cons] at hnd
    rcases List.mem_cons.1 hl with rfl | hl2
    · simp [volAt]
    · have hne : ¬ (a.price = l.price) := by
        intro hEq
        exact hnd.1 (hEq ▸ List.mem_map_of_mem PriceLevelData.price hl2)
      have hd : (decide (a.price = l.price)) = false := by simpa using hne
      simp only [volAt, List.find?_cons, hd]
      exact ih hnd.2 hl2

/-- Every stored price has positive looked-up volume when all levels carry
positive volume. -/
theorem volAt_pos {pls : List PriceLevelData}
    (hnd : (pls.map PriceLevelData.price).Nodup)
    (hpos : ∀ l ∈ pls, 0 < l.total_volume)
    {p : ℚ} (hp : p ∈ pls.map PriceLevelData.price) : 0 < volAt pls p := by
  obtain ⟨l, hl, rfl⟩ := List.mem_map.1 hp
  rw [volAt_eq hnd hl]
  exact hpos l hl

theorem sortedPrices_perm (pls : List PriceLevelData) :
    List.Perm (sortedPrices pls) (pls.map PriceLevelData.price) :=
  List.perm_insertionSort _ _

theorem sortedPrices_sorted_le (pls : List PriceLevelData) :
    (sortedPrices pls).Sorted (· ≤ ·) :=
  List.sorted_insertionSort _ _

theorem sortedPrices_sorted_lt {pls : List PriceLevelData}
    (hnd : (pls.map PriceLevelData.price).Nodup) :
    (sortedPrices pls).Sorted (· < ·) :=
  List.Sorted.lt_of_le (sortedPrices_sorted_le pls)
    (((sortedPrices_perm pls).nodup_iff).2 hnd)

/-- A singleton window is the singleton list at that index. -/
theorem vaWindow_single {s : List ℚ} {i : ℕ} (hi : i < s.length) :
    vaWindow s i i = [s.getD i 0] := by
  unfold vaWindow
  have h1 : i + 1 - i = 1 := by omega
  rw [h1, List.drop_eq_getElem_cons hi, List.getD_eq_getElem _ _ hi]
  rfl

/-- A singleton window holds exactly the volume at its price. -/
theorem vaWindowSum_single (pls : List PriceLevelData) {s : List ℚ} {i : ℕ}
    (hi : i < s.length) :
    vaWindowSum pls s i i = volAt pls (s.getD i 0) := by
  unfold vaWindowSum
  rw [vaWindow_single hi]
  simp

/-- Expanding the window upward adds the next level above. -/
theorem vaWindowSum_expand_up (pls : List PriceLevelData) {s : List ℚ}
    {low high : ℕ} (hlh : low ≤ high + 1) (hh : high + 1 < s.length) :
    vaWindowSum pls s low (high + 1)
      = vaWindowSum pls s low high + volAt pls (s.getD (high + 1) 0) := by
  unfold vaWindowSum vaWindow
  have h1 : high + 1 + 1 - low = (high + 1 - low) + 1 := by omega
  rw [h1, List.take_succ]
  have hsum : low + (high + 1 - low) = high + 1 := by omega
  have h3 : (s.drop low)[high + 1 - low]? = some (s.getD (high + 1) 0) := by
    rw [List.getElem?_drop, hsum, List.getElem?_eq_getElem hh,
      List.getD_eq_getElem _ _ hh]
  rw [h3]
  simp

/-- Expanding the window downward adds the next level below. -/
theorem vaWindowSum_expand_down (pls : List PriceLevelData) {s : List ℚ}
    {low high : ℕ} (h1l : 1 ≤ low) (hlh : low ≤ high + 1) (hh : high < s.length) :
    vaWindowSum pls s (low - 1) high
      = volAt pls (s.getD (low - 1) 0) + vaWindowSum pls s low high := by
  unfold vaWindowSum vaWindow
  have hlow1 : low - 1 < s.length := by omega
  rw [List.drop_eq_getElem_cons hlow1]
  have h2 : low - 1 + 1 = low := by omega
  have h3 : high + 1 - (low - 1) = (high + 1 - low) + 1 := by omega
  rw [h2, h3, List.take_succ_cons, List.getD_eq_getElem _ _ hlow1]
  simp

/-- Invariant of the Value-Area expansion loop: starting from a window
`[low, high]` whose accumulated volume is `va`, with every listed price
carrying positive volume and enough fuel, the loop returns a window that
contains the original one, stays inside the list, and either reaches the
target volume or covers the whole list. -/
theorem vaExpand_spec (pls : List PriceLevelData) (s : List ℚ) (target : ℚ)
    (hpos : ∀ p ∈ s, 0 < volAt pls p) :
    ∀ (fuel low high : ℕ) (va : ℤ),
      low ≤ high → high < s.length → s.length ≤ fuel + (high - low) + 1 →
      va = vaWindowSum pls s low high →
      (vaExpand pls s target fuel low high va).1 ≤ low ∧
      high ≤ (vaExpand pls s target fuel low high va).2 ∧
      (vaExpand pls s target fuel low high va).2 < s.length ∧
      (target ≤ ((vaWindowSum pls s (vaExpand pls s target fuel low high va).1
          (vaExpand pls s target fuel low high va).2 : ℤ) : ℚ) ∨
        ((vaExpand pls s target fuel low high va).1 = 0 ∧
          (vaExpand pls s target fuel low high va).2 = s.length - 1)) := by
  intro fuel
  induction fuel with
  | zero =>
    intro low high va hlh hh hfuel hva
    simp only [vaExpand]
    exact ⟨le_refl _, le_refl _, hh, Or.inr ⟨by omega, by omega⟩⟩
  | succ fuel ih =>
    intro low high va hlh hh hfuel hva
    have hmemA : high + 1 < s.length → s.getD (high + 1) 0 ∈ s := by
      intro h
      rw [List.getD_eq_getElem _ _ h]
      exact List.getElem_mem _
    have hmemB : 1 ≤ low → s.getD (low - 1) 0 ∈ s := by
      intro _
      have h : low - 1 < s.length := by omega
      rw [List.getD_eq_getElem _ _ h]
      exact List.getElem_mem _
    simp only [vaExpand]
    by_cases hlt : (va : ℚ) < target
    · rw [if_pos hlt]
      have hvAnn : 0 ≤ (if high + 1 < s.length then volAt pls (s.getD (high + 1) 0) else 0) := by
        split
        · exact le_of_lt (hpos _ (hmemA (by assumption)))
        · exact le_refl 0
      have hvBnn : 0 ≤ (if 1 ≤ low then volAt pls (s.getD (low - 1) 0) else 0) := by
        split
        · exact le_of_lt (hpos _ (hmemB (by assumption)))
        · exact le_refl 0
      by_cases hzero :
          (if high + 1 < s.length then volAt pls (s.getD (high + 1) 0) else 0) = 0 ∧
          (if 1 ≤ low then volAt pls (s.getD (low - 1) 0) else 0) = 0
      · rw [if_pos hzero]
        obtain ⟨hA0, hB0⟩ := hzero
        have hhigh : ¬ (high + 1 < s.length) := by
          intro h
          rw [if_pos h] at hA0
          exact absurd hA0 (ne_of_gt (hpos _ (hmemA h)))
        have hlow : ¬ (1 ≤ low) := by
          intro h
          rw [if_pos h] at hB0
          exact absurd hB0 (ne_of_gt (hpos _ (hmemB h)))
        exact ⟨le_refl _, le_refl _, hh, Or.inr ⟨by omega, by omega⟩⟩
      · rw [if_neg hzero]
        by_cases hBA :
            (if 1 ≤ low then volAt pls (s.getD (low - 1) 0) else 0) ≤
            (if high + 1 < s.length then volAt pls (s.getD (high + 1) 0) else 0)
        · rw [if_pos hBA]
          have hAne : (if high + 1 < s.length then volAt pls (s.getD (high + 1) 0) else 0) ≠ 0 := by
            intro hA0
            rw [hA0] at hBA
            have hB0 : (if 1 ≤ low then volAt pls (s.getD (low - 1) 0) else 0) = 0 :=
              le_antisymm hBA hvBnn
            exact hzero ⟨hA0, hB0⟩
          have hh1 : high + 1 < s.length := by
            by_contra h
            exact hAne (if_neg h)
          rw [if_pos hh1]
          have hva' : va + volAt pls (s.getD (high + 1) 0)
              = vaWindowSum pls s low (high + 1) := by
            rw [vaWindowSum_expand_up pls (by omega) hh1, hva]
          have := ih low (high + 1) (va + volAt pls (s.getD (high + 1) 0))
            (by omega) hh1 (by omega) hva'
          exact ⟨this.1, by omega, this.2.2.1, this.2.2.2⟩
        · rw [if_neg hBA]
          have hBne : (if 1 ≤ low then volAt pls (s.getD (low - 1) 0) else 0) ≠ 0 := by
            intro hB0
            rw [hB0] at hBA
            exact hBA hvAnn
          have h1l : 1 ≤ low := by
            by_contra h
            exact hBne (if_neg h)
          rw [if_pos h1l]
          have hva' : va + volAt pls (s.getD (low - 1) 0)
              = vaWindowSum pls s (low - 1) high := by
            rw [vaWindowSum_expand_down pls h1l (by omega) hh, hva]
            ring
          have := ih (low - 1) high (va + volAt pls (s.getD (low - 1) 0))
            (by omega) hh (by omega) hva'
          exact ⟨by omega, this.2.1, this.2.2.1, this.2.2.2⟩
    · rw [if_neg hlt]
      refine ⟨le_refl _, le_refl _, hh, Or.inl ?_⟩
      rw [← hva]
      exact not_lt.1 hlt

/-- On a strictly sorted list, filtering to the closed interval between the
entries at `low` and `high` yields exactly the contiguous slice `[low..high]`. -/
theorem filter_range_eq_vaWindow {s : List ℚ} (hs : s.Sorted (· < ·))
    {low high : ℕ} (hlh : low ≤ high) (hh : high < s.length) :
    s.filter (fun p => decide (s.getD low 0 ≤ p ∧ p ≤ s.getD high 0))
      = vaWindow s low high := by
  have hlow : low < s.length := lt_of_le_of_lt hlh hh
  have hsle : s.Sorted (· ≤ ·) := hs.le_of_lt
  obtain ⟨a, ha⟩ : ∃ a, s.getD low 0 = a := ⟨_, rfl⟩
  obtain ⟨b, hb⟩ : ∃ b, s.getD high 0 = b := ⟨_, rfl⟩
  have ha' : s.get ⟨low, hlow⟩ = a := by
    rw [← ha, List.getD_eq_getElem _ _ hlow]
    rfl
  have hb' : s.get ⟨high, hh⟩ = b := by
    rw [← hb, List.getD_eq_getElem _ _ hh]
    rfl
  rw [ha, hb]
  have hwinlen : (vaWindow s low high).length = high + 1 - low := by
    rw [vaWindow]
    simp only [List.length_take, List.length_drop]
    omega
  have hdecomp : s.take low ++ (vaWindow s low high ++ s.drop (high + 1)) = s := by
    unfold vaWindow
    rw [← List.append_assoc, ← List.take_add]
    have h1 : low + (high + 1 - low) = high + 1 := by omega
    rw [h1, List.take_append_drop]
  conv_lhs => rw [← hdecomp]
  rw [List.filter_append, List.filter_append]
  have h1 : (s.take low).filter (fun p => decide (a ≤ p ∧ p ≤ b)) = [] := by
    rw [List.filter_eq_nil_iff]
    intro p hp
    obtain ⟨i, hi, hpe⟩ := List.mem_iff_getElem.1 hp
    have hi' : i < low := by
      simp only [List.length_take] at hi
      omega
    have hilt : i < s.length := by omega
    have hpe2 : s.get ⟨i, hilt⟩ = p := by
      rw [← hpe, List.get_eq_getElem, List.getElem_take]
    have hlt : p < a := by
      rw [← hpe2, ← ha']
      exact hs.rel_get_of_lt (by exact hi')
    simp only [decide_eq_true_eq, not_and, not_le]
    intro hap
    exact absurd hlt (not_lt.2 hap)
  have h2 : (vaWindow s low high).filter (fun p => decide (a ≤ p ∧ p ≤ b))
      = vaWindow s low high := by
    rw [List.filter_eq_self]
    intro p hp
    obtain ⟨j, hj, hpe⟩ := List.mem_iff_getElem.1 hp
    have hj' : j < high + 1 - low := by rw [← hwinlen]; exact hj
    have hlj : low + j < s.length := by omega
    have hpe2 : s.get ⟨low + j, hlj⟩ = p := by
      rw [← hpe, List.get_eq_getElem]
      unfold vaWindow
      simp only [List.getElem_take, List.getElem_drop]
    have hup : p ≤ b := by
      rw [← hpe2, ← hb']
      exact hsle.rel_get_of_le (by simp [Fin.le_def]; omega)
    have hdown : a ≤ p := by
      rw [← hpe2, ← ha']
      exact hsle.rel_get_of_le (by simp [Fin.le_def])
    simp [hup, hdown]
  have h3 : (s.drop (high + 1)).filter (fun p => decide (a ≤ p ∧ p ≤ b)) = [] := by
    rw [List.filter_eq_nil_iff]
    intro p hp
    obtain ⟨j, hj, hpe⟩ := List.mem_iff_getElem.1 hp
    have hjlen : high + 1 + j < s.length := by
      simp only [List.length_drop] at hj
      omega
    have hpe2 : s.get ⟨high + 1 + j, hjlen⟩ = p := by
      rw [← hpe, List.get_eq_getElem, List.getElem_drop]
    have hlt : b < p := by
      rw [← hpe2, ← hb']
      exact hs.rel_get_of_lt (by simp [Fin.lt_def]; omega)
    simp only [decide_eq_true_eq, not_and, not_le]
    intro _
    exact hlt
  rw [h1, h2, h3]
  simp

/-- Summing `total_volume` over the levels whose price satisfies a predicate
equals summing the dict lookups over the matching keys (key uniqueness). -/
theorem sum_filter_levels (pls : List PriceLevelData)
    (hnd : (pls.map PriceLevelData.price).Nodup) (pb : ℚ → Bool) :
    ((pls.filter (fun l => pb l.price)).map PriceLevelData.total_volume).sum
      = (((pls.map PriceLevelData.price).filter pb).map (volAt pls)).sum := by
  rw [List.filter_map, List.map_map]
  apply congrArg
  apply List.map_congr_left
  intro l hl
  have hl2 : l ∈ pls := List.mem_of_mem_filter hl
  exact (volAt_eq hnd hl2).symm

/-- The whole sorted key list carries the bar's total volume. -/
theorem sum_volAt_sorted (pls : List PriceLevelData)
    (hnd : (pls.map PriceLevelData.price).Nodup) :
    ((sortedPrices pls).map (volAt pls)).sum
      = (pls.map PriceLevelData.total_volume).sum := by
  have h1 : ((sortedPrices pls).map (volAt pls)).sum
      = (((pls.map PriceLevelData.price)).map (volAt pls)).sum :=
    ((sortedPrices_perm pls).map (volAt pls)).sum_eq
  rw [h1, List.map_map]
  apply congrArg
  apply List.map_congr_left
  intro l hl
  exact volAt_eq hnd hl

/-- On a non-empty dict with positive total volume, `update_bar_statistics`
runs the Value-Area search: the VA bounds are the sorted prices at the indices
returned by the expansion loop started at the POC's index, and
`total_bar_volume` is the plain sum. -/
theorem updateBarStatistics_va_fields (vap : ℚ) (bar : FootprintBar)
    (hd : PriceLevelData) (tl : List PriceLevelData)
    (h : bar.price_levels = hd :: tl)
    (hpos : 0 < ((hd :: tl).map PriceLevelData.total_volume).sum) :
    (updateBarStatistics vap bar).total_bar_volume
        = ((hd :: tl).map PriceLevelData.total_volume).sum ∧
    (updateBarStatistics vap bar).value_area_low
        = some ((sortedPrices (hd :: tl)).getD
            (vaExpand (hd :: tl) (sortedPrices (hd :: tl))
              ((((hd :: tl).map PriceLevelData.total_volume).sum : ℚ) * vap)
              (sortedPrices (hd :: tl)).length
              ((sortedPrices (hd :: tl)).indexOf (pocLevelAux hd tl).price)
              ((sortedPrices (hd :: tl)).indexOf (pocLevelAux hd tl).price)
              (volAt (hd :: tl) (pocLevelAux hd tl).price)).1 0) ∧
    (updateBarStatistics vap bar).value_area_high
        = some ((sortedPrices (hd :: tl)).getD
            (vaExpand (hd :: tl) (sortedPrices (hd :: tl))
              ((((hd :: tl).map PriceLevelData.total_volume).sum : ℚ) * vap)
              (sortedPrices (hd :: tl)).length
              ((sortedPrices (hd :: tl)).indexOf (pocLevelAux hd tl).price)
              ((sortedPrices (hd :: tl)).indexOf (pocLevelAux hd tl).price)
              (volAt (hd :: tl) (pocLevelAux hd tl).price)).2 0) := by
  simp only [updateBarStatistics, h]
  rw [if_neg (by simp)]
  norm_num [pocLevel]
  rw [if_pos (by simpa using hpos)]
  norm_num

/-- C1: for a bar with a non-empty dict of distinct price keys, each carrying
the positive volume that ticks with `volume > 0` produce, after
`update_bar_statistics(vap)`: `value_area_low ≤ poc_price ≤ value_area_high`,
both VA bounds are keys of the dict, and the volume inside
`[value_area_low, value_area_high]` reaches `vap × total_bar_volume` or — when
the levels run out first — equals the whole bar volume. -/
theorem C1_value_area (vap : ℚ) (bar : FootprintBar)
    (hne : bar.price_levels ≠ [])
    (hnd : (bar.price_levels.map PriceLevelData.price).Nodup)
    (hpos : ∀ l ∈ bar.price_levels, 0 < l.total_volume) :
    ∃ poc val vah : ℚ,
      (updateBarStatistics vap bar).poc_price = some poc ∧
      (updateBarStatistics vap bar).value_area_low = some val ∧
      (updateBarStatistics vap bar).value_area_high = some vah ∧
      val ≤ poc ∧ poc ≤ vah ∧
      val ∈ bar.price_levels.map PriceLevelData.price ∧
      vah ∈ bar.price_levels.map PriceLevelData.price ∧
      (((updateBarStatistics vap bar).total_bar_volume : ℚ) * vap ≤
          (((bar.price_levels.filter
              (fun l => decide (val ≤ l.price ∧ l.price ≤ vah))).map
                PriceLevelData.total_volume).sum : ℚ) ∨
        ((bar.price_levels.filter
            (fun l => decide (val ≤ l.price ∧ l.price ≤ vah))).map
              PriceLevelData.total_volume).sum
          = (updateBarStatistics vap bar).total_bar_volume) := by
  rcases hpls : bar.price_levels with _ | ⟨hd, tl⟩
  · exact absurd hpls hne
  rw [hpls] at hnd hpos
  have hsum_pos : 0 < ((hd :: tl).map PriceLevelData.total_volume).sum := by
    apply List.sum_pos
    · intro x hx
      obtain ⟨l, hl, rfl⟩ := List.mem_map.1 hx
      exact hpos l hl
    · simp
  obtain ⟨htv, hval, hvah⟩ := updateBarStatistics_va_fields vap bar hd tl hpls hsum_pos
  have hpoc : (updateBarStatistics vap bar).poc_price
      = some (pocLevelAux hd tl).price := updateBarStatistics_poc vap bar hd tl hpls
  set s := sortedPrices (hd :: tl) with hs_def
  set tgt : ℚ := (((hd :: tl).map PriceLevelData.total_volume).sum : ℚ) * vap
    with htgt_def
  set pocIdx := s.indexOf (pocLevelAux hd tl).price with hpocIdx_def
  set va0 := volAt (hd :: tl) (pocLevelAux hd tl).price with hva0_def
  set r := vaExpand (hd :: tl) s tgt s.length pocIdx pocIdx va0 with hr_def
  -- sorted-keys facts
  have hperm : List.Perm s ((hd :: tl).map PriceLevelData.price) :=
    sortedPrices_perm (hd :: tl)
  have hslt : s.Sorted (· < ·) := sortedPrices_sorted_lt hnd
  have hsle : s.Sorted (· ≤ ·) := sortedPrices_sorted_le (hd :: tl)
  have hslen : s.length = tl.length + 1 := by
    rw [hperm.length_eq]
    simp
  -- the POC's key and index
  have hpoc_mem_pls : pocLevelAux hd tl ∈ hd :: tl := by
    obtain ⟨i, hi, heq, _, _⟩ := pocLevelAux_first_max tl hd
    rw [heq]
    exact List.get_mem _ _ _
  have hpoc_mem : (pocLevelAux hd tl).price ∈ (hd :: tl).map PriceLevelData.price :=
    List.mem_map_of_mem _ hpoc_mem_pls
  have hpoc_s : (pocLevelAux hd tl).price ∈ s := hperm.mem_iff.2 hpoc_mem
  have hidx : pocIdx < s.length := List.indexOf_lt_length.2 hpoc_s
  have hget : s.getD pocIdx 0 = (pocLevelAux hd tl).price := by
    rw [List.getD_eq_getElem _ _ hidx]
    exact List.getElem_indexOf hidx
  have hSpos : ∀ p ∈ s, 0 < volAt (hd :: tl) p := by
    intro p hp
    exact volAt_pos hnd hpos (hperm.mem_iff.1 hp)
  have hva0 : va0 = vaWindowSum (hd :: tl) s pocIdx pocIdx := by
    rw [vaWindowSum_single (hd :: tl) hidx, hget]
  have spec := vaExpand_spec (hd :: tl) s tgt hSpos s.length pocIdx pocIdx va0
    (le_refl _) hidx (by omega) hva0
  rw [← hr_def] at spec
  obtain ⟨hr1, hr2, hr2n, hdisj⟩ := spec
  have hr1n : r.1 < s.length := by omega
  have e1 : s.getD r.1 0 = s.get ⟨r.1, hr1n⟩ := List.getD_eq_getElem _ _ hr1n
  have e2 : s.getD r.2 0 = s.get ⟨r.2, hr2n⟩ := List.getD_eq_getElem _ _ hr2n
  have epoc : (pocLevelAux hd tl).price = s.get ⟨pocIdx, hidx⟩ := by
    rw [List.get_eq_getElem]
    exact (List.getElem_indexOf hidx).symm
  refine ⟨(pocLevelAux hd tl).price, s.getD r.1 0, s.getD r.2 0,
    hpoc, hval, hvah, ?_, ?_, ?_, ?_, ?_⟩
  · -- val ≤ poc
    rw [e1, epoc]
    exact hsle.rel_get_of_le (by simpa [Fin.le_def] using hr1)
  · -- poc ≤ vah
    rw [e2, epoc]
    exact hsle.rel_get_of_le (by simpa [Fin.le_def] using hr2)
  · -- val is a key
    rw [← hperm.mem_iff, e1]
    exact List.get_mem _ _ _
  · -- vah is a key
    rw [← hperm.mem_iff, e2]
    exact List.get_mem _ _ _
  · -- the volume inside the value area
    rw [htv]
    have t3 : s.filter (fun p => decide (s.getD r.1 0 ≤ p ∧ p ≤ s.getD r.2 0))
        = vaWindow s r.1 r.2 :=
      filter_range_eq_vaWindow hslt (by omega) hr2n
    have t1 := sum_filter_levels (hd :: tl) hnd
      (fun p => decide (s.getD r.1 0 ≤ p ∧ p ≤ s.getD r.2 0))
    have t2 := ((hperm.filter
      (fun p => decide (s.getD r.1 0 ≤ p ∧ p ≤ s.getD r.2 0))).map
        (volAt (hd :: tl))).sum_eq
    have hchain : (((hd :: tl).filter
        (fun l => decide (s.getD r.1 0 ≤ l.price ∧ l.price ≤ s.getD r.2 0))).map
          PriceLevelData.total_volume).sum
        = vaWindowSum (hd :: tl) s r.1 r.2 := by
      calc (((hd :: tl).filter
          (fun l => decide (s.getD r.1 0 ≤ l.price ∧ l.price ≤ s.getD r.2 0))).map
            PriceLevelData.total_volume).sum
          = ((((hd :: tl).map PriceLevelData.price).filter
              (fun p => decide (s.getD r.1 0 ≤ p ∧ p ≤ s.getD r.2 0))).map
                (volAt (hd :: tl))).sum := t1
        _ = ((s.filter
              (fun p => decide (s.getD r.1 0 ≤ p ∧ p ≤ s.getD r.2 0))).map
                (volAt (hd :: tl))).sum := t2.symm
        _ = ((vaWindow s r.1 r.2).map (volAt (hd :: tl))).sum := by rw [t3]
        _ = vaWindowSum (hd :: tl) s r.1 r.2 := rfl
    rw [hchain]
    rcases hdisj with hleft | ⟨h0, hn1⟩
    · exact Or.inl hleft
    · refine Or.inr ?_
      rw [h0, hn1]
      have hwin : vaWindow s 0 (s.length - 1) = s := by
        unfold vaWindow
        rw [List.drop_zero]
        have h1 : s.length - 1 + 1 - 0 = s.length := by rw [hslen]; omega
        rw [h1, List.take_length]
      unfold vaWindowSum
      rw [hwin]
      exact sum_volAt_sorted (hd :: tl) hnd

/-- Witness for C1 on a concrete two-level bar (volumes 10 and 10,
target fraction 0.7). -/
theorem C1_witness :
    (barTie.price_levels ≠ [] ∧
      (barTie.price_levels.map PriceLevelData.price).Nodup ∧
      (∀ l ∈ barTie.price_levels, 0 < l.total_volume)) ∧
    (∃ poc val vah : ℚ,
      (updateBarStatistics (7/10) barTie).poc_price = some poc ∧
      (updateBarStatistics (7/10) barTie).value_area_low = some val ∧
      (updateBarStatistics (7/10) barTie).value_area_high = some vah ∧
      val ≤ poc ∧ poc ≤ vah ∧
      val ∈ barTie.price_levels.map PriceLevelData.price ∧
      vah ∈ barTie.price_levels.map PriceLevelData.price ∧
      (((updateBarStatistics (7/10) barTie).total_bar_volume : ℚ) * (7/10) ≤
          (((barTie.price_levels.filter
              (fun l => decide (val ≤ l.price ∧ l.price ≤ vah))).map
                PriceLevelData.total_volume).sum : ℚ) ∨
        ((barTie.price_levels.filter
            (fun l => decide (val ≤ l.price ∧ l.price ≤ vah))).map
              PriceLevelData.total_volume).sum
          = (updateBarStatistics (7/10) barTie).total_bar_volume)) :=
  ⟨⟨by decide, by decide, by decide⟩,
   C1_value_area (7/10) barTie (by decide) (by decide) (by decide)⟩

/-! ## Bridging lemmas: engine-built bars satisfy C1's hypotheses -/

theorem applyTickToLevel_price (zh : ZeroHandling) (tk : Tick) (l : PriceLevelData) :
    (applyTickToLevel zh tk l).price = l.price := by
  unfold applyTickToLevel
  split <;> simp [updateDerivedMetrics]

theorem map_price_updateLevel (rp : ℚ) (f : PriceLevelData → PriceLevelData)
    (hf : ∀ l, (f l).price = l.price) :
    ∀ ls : List PriceLevelData,
      (updateLevel rp f ls).map PriceLevelData.price = ls.map PriceLevelData.price := by
  intro ls
  induction ls with
  | nil => rfl
  | cons a as ih =>
    by_cases h : a.price = rp
    · simp [updateLevel, h, hf]
    · simp [updateLevel, h, ih]

theorem updateLevel_append_new (rp : ℚ) (f : PriceLevelData → PriceLevelData)
    {ls : List PriceLevelData} (h : ∀ l ∈ ls, ¬ (l.price = rp))
    {x : PriceLevelData} (hx : x.price = rp) :
    updateLevel rp f (ls ++ [x]) = ls ++ [f x] := by
  induction ls with
  | nil => simp [updateLevel, hx]
  | cons a as ih =>
    have ha : ¬ (a.price = rp) := h a (List.mem_cons_self _ _)
    simp only [List.cons_append, updateLevel, if_neg ha]
    show a :: updateLevel rp f (as ++ [x]) = a :: (as ++ [f x])
    rw [ih (fun l hl => h l (List.mem_cons_of_mem _ hl))]

theorem applyTickToLevel_pos (zh : ZeroHandling) (tk : Tick) (htk : 0 < tk.volume)
    {l : PriceLevelData} (hl : 0 ≤ l.bid_volume ∧ 0 ≤ l.ask_volume) :
    0 ≤ (applyTickToLevel zh tk l).bid_volume ∧
    0 ≤ (applyTickToLevel zh tk l).ask_volume ∧
    0 < (applyTickToLevel zh tk l).total_volume := by
  obtain ⟨hb, ha⟩ := hl
  unfold applyTickToLevel
  split <;> simp [updateDerivedMetrics] <;> omega

theorem barLevelsWF_foldTick (cfg : FootprintEngineConfig) (tk : Tick)
    (htk : 0 < tk.volume) {b : FootprintBar} (hb : BarLevelsWF b) :
    BarLevelsWF (foldTickIntoBar cfg tk b) := by
  obtain ⟨hnd, hmem⟩ := hb
  unfold foldTickIntoBar BarLevelsWF
  simp only
  by_cases hpresent : b.price_levels.any
      (fun l => decide (l.price = quantize cfg.tick_size tk.price))
  · rw [if_pos hpresent]
    constructor
    · rw [map_price_updateLevel _ _ (applyTickToLevel_price _ tk)]
      exact hnd
    · intro l hl
      rcases mem_updateLevel hl with hl2 | ⟨y, hy, rfl⟩
      · exact ⟨(hmem l hl2).1, (hmem l hl2).2.1, (hmem l hl2).2.2⟩
      · exact applyTickToLevel_pos _ tk htk ⟨(hmem y hy).1, (hmem y hy).2.1⟩
  · rw [if_neg hpresent]
    have habsent : ∀ l ∈ b.price_levels, ¬ (l.price = quantize cfg.tick_size tk.price) := by
      rw [List.any_eq_true] at hpresent
      intro l hl hEq
      exact hpresent ⟨l, hl, by simpa using hEq⟩
    have hmkp : (mkPriceLevelData (quantize cfg.tick_size tk.price)).price
        = quantize cfg.tick_size tk.price := by
      simp [mkPriceLevelData, updateDerivedMetrics]
    rw [updateLevel_append_new _ _ habsent hmkp]
    constructor
    · rw [List.map_append]
      rw [List.nodup_append]
      refine ⟨hnd, by simp, ?_⟩
      intro p hp
      simp only [List.map_cons, List.map_nil, List.mem_singleton]
      obtain ⟨l, hl, rfl⟩ := List.mem_map.1 hp
      intro hEq
      rw [applyTickToLevel_price, hmkp] at hEq
      exact habsent l hl hEq
    · intro l hl
      rcases List.mem_append.1 hl with hl2 | hl2
      · exact ⟨(hmem l hl2).1, (hmem l hl2).2.1, (hmem l hl2).2.2⟩
      · simp only [List.mem_singleton] at hl2
        subst hl2
        apply applyTickToLevel_pos _ tk htk
        constructor <;> simp [mkPriceLevelData, updateDerivedMetrics]

theorem barLevelsWF_updateBarStatistics (vap : ℚ) {b : FootprintBar}
    (hb : BarLevelsWF b) : BarLevelsWF (updateBarStatistics vap b) := by
  unfold BarLevelsWF at hb ⊢
  rw [(updateBarStatistics_frame vap b).2.2.2.2.2.2.1]
  exact hb

theorem stateLevelsWF_processTick (cfg : FootprintEngineConfig)
    {s : EngineState} (hs : StateLevelsWF s) (tk : Tick) (htk : 0 < tk.volume) :
    StateLevelsWF (processTick cfg s tk) := by
  obtain ⟨hbars, hcur⟩ := hs
  have hfresh : BarLevelsWF (createNewBar cfg tk.timestamp tk.price) := by
    constructor <;> simp [createNewBar]
  unfold processTick
  rcases hc : s.current_bar with _ | b
  · exact ⟨fun b2 hb2 => hbars b2 hb2,
      fun b2 hb2 => by
        simp only [Option.some.injEq] at hb2
        exact hb2 ▸ barLevelsWF_foldTick cfg tk htk hfresh⟩
  · by_cases hcross : shouldCreateNewBar cfg b tk.timestamp
    · simp only [hc, hcross, if_true]
      constructor
      · intro b2 hb2
        rcases mem_bars_finalize (by simpa using hb2) with h3 | ⟨b3, hb3, rfl⟩
        · exact hbars b2 h3
        · simp only [hc, Option.some.injEq] at hb3
          exact barLevelsWF_updateBarStatistics _ (hb3 ▸ hcur b hc)
      · intro b2 hb2
        simp only [Option.some.injEq] at hb2
        exact hb2 ▸ barLevelsWF_foldTick cfg tk htk hfresh
    · simp only [hc, Bool.not_eq_true] at hcross
      simp only [hc, hcross, Bool.false_eq_true, if_false]
      exact ⟨fun b2 hb2 => hbars b2 hb2,
        fun b2 hb2 => by
          simp only [Option.some.injEq] at hb2
          exact hb2 ▸ barLevelsWF_foldTick cfg tk htk (hcur b hc)⟩

/-- Every bar an engine builds from positive-volume ticks satisfies the
hypotheses of `C1_value_area`: unique price keys and strictly positive
per-level total volumes. -/
theorem engine_bars_satisfy_C1_hypotheses (cfg : FootprintEngineConfig)
    (ticks : List Tick) (hticks : ∀ tk ∈ ticks, 0 < tk.volume) :
    StateLevelsWF (processTicks cfg initState ticks) := by
  suffices h : ∀ (ts : List Tick), (∀ tk ∈ ts, 0 < tk.volume) →
      ∀ s : EngineState, StateLevelsWF s → StateLevelsWF (processTicks cfg s ts) by
    refine h ticks hticks initState ⟨?_, ?_⟩ <;> simp [initState]
  intro ts
  induction ts with
  | nil => exact fun _ s hs => hs
  | cons tk ts ih =>
    intro hts s hs
    exact ih (fun t ht => hts t (List.mem_cons_of_mem _ ht)) _
      (stateLevelsWF_processTick cfg hs tk (hts tk (List.mem_cons_self _ _)))
